import Mathlib

/-!
Verification of the `mapboxwrapper` templating wrapper
(`src/mapboxwrapper/mapboxwrapper_class.py`).

The module builds a static HTML map page by accumulating feature records
(`add_feature`), then filling placeholder tokens of an HTML template with a
GeoJSON source string, per-geometry-family layer strings, a toggle script and
center/bounds values (`output_html`).

Modelling conventions (shallow embedding):

* Python values appearing in feature records, property dictionaries and
  filter expressions are modelled by the first-order type `PyVal`.
  Python lists are cons-chains (`PyVal.nil` / `PyVal.cons`), Python dicts
  are insertion-ordered key/value chains (`PyVal.dnil` / `PyVal.dcons`).
* A feature record (a Python dict passed to `add_feature`) is modelled as
  its insertion-ordered key/value sequence `Record`; `list(feature)` is
  `rec.map Prod.fst`.
* Numbers are exact rationals `ℚ`; CPython float formatting is abstracted
  by `numRepr` (the claims under verification never depend on the decimal
  text of a number, only on numeric values and on which strings are
  concatenated).
* Mutating methods are state-passing functions on `St`; a raised Python
  exception is the `Option Err` component of the result, and the returned
  `St` reflects exactly the mutations performed before the raise.
* The HTML template is a sequence of segments `Tpl`: literal text and
  placeholder tokens.  Each placeholder constructor stands for its literal
  token text (see `phText`); the two slot placeholders include the blank
  line that `_read_template` appends after them, so that `re.sub` of the
  bare token inside a slot corresponds to replacing the slot segment with
  the substituted text followed by the blank line, and the final strip of
  `"__FILLINSOURCE__\n\n"` / `"__FILLINLAYER__\n\n"` corresponds to
  dropping the remaining slot segments.  This segment representation is
  exact for templates in which the token strings occur only as the marked
  segments (the regime of the round-trip claim).
* `np.unique` on the stored geometry-family strings is `npUnique`:
  lexicographically sorted distinct values (numpy sorts strings by code
  points); `np.ravel(...).tolist()` on a nested list is `ravel`.
* The two toggle-script template files are data files outside `src/`; their
  contents are parameters (`ToggleTpl`), with the two tokens
  `__FILLINLAYERIDS__` / `__FILLINLAYERPROPERTY__` as segment constructors.
* The `filters` argument of `output_html` is modelled as a Python list of
  values (`List PyVal`), which is what its `filters: list` annotation
  declares and what every successful call must pass (the declared default
  is the empty tuple `()`, whose concatenation with a list would itself
  raise `TypeError`).
-/

namespace MBW

/-- Python runtime values, restricted to the shapes the wrapper manipulates:
strings, numbers, booleans, `None`, lists (as cons-chains) and dicts (as
insertion-ordered key/value chains with string keys). -/
inductive PyVal where
  | str (s : String)
  | num (q : ℚ)
  | pybool (b : Bool)
  | pynone
  | nil
  | cons (hd tl : PyVal)
  | dnil
  | dcons (k : String) (v : PyVal) (tl : PyVal)
deriving DecidableEq

/-- Python exceptions raised by the wrapper, tagged with their message or key. -/
inductive Err where
  | attributeError (msg : String)
  | keyError (key : String)
  | typeError (msg : String)
  | valueError (msg : String)
deriving DecidableEq

/-- Embed a Lean list as a Python list value. -/
def pl : List PyVal → PyVal
  | [] => .nil
  | x :: xs => .cons x (pl xs)

/-- Embed a Lean association list as a Python dict value. -/
def pd : List (String × PyVal) → PyVal
  | [] => .dnil
  | (k, v) :: xs => .dcons k v (pd xs)

/-- `isinstance(v, list)`. -/
def isPyList : PyVal → Bool
  | .nil => true
  | .cons _ _ => true
  | _ => false

/-- `isinstance(v, dict)`. -/
def isPyDict : PyVal → Bool
  | .dnil => true
  | .dcons _ _ _ => true
  | _ => false

/-- The elements of a Python list value (`none` on non-lists). -/
def pyElems : PyVal → Option (List PyVal)
  | .nil => some []
  | .cons h t => (pyElems t).map (h :: ·)
  | _ => none

/-- The key/value pairs of a Python dict value, in insertion order. -/
def dictPairs : PyVal → List (String × PyVal)
  | .dcons k v t => (k, v) :: dictPairs t
  | _ => []

/-- `d.get(k)` on a Python dict value: first (only) binding of `k`. -/
def dictGet : PyVal → String → Option PyVal
  | .dcons k v t, key => if k = key then some v else dictGet t key
  | _, _ => none

/-- Python truthiness for the values of `PyVal`. -/
def truthy : PyVal → Bool
  | .str s => s ≠ ""
  | .num q => q ≠ 0
  | .pybool b => b
  | .pynone => false
  | .nil => false
  | .cons _ _ => true
  | .dnil => false
  | .dcons _ _ _ => true

/-- `np.ravel(v).tolist()`: flatten nested list structure to the list of its
leaves, in order. -/
def ravel : PyVal → List PyVal
  | .nil => []
  | .cons h t => ravel h ++ ravel t
  | v => [v]

/-- Decimal text of a number.  Stand-in for CPython's float/int formatting;
the verified claims never depend on this text, only on its determinism. -/
def numRepr (q : ℚ) : String := toString q.num ++ "/" ++ toString q.den

mutual

/-- Python `repr` of a value (used by `str()` on lists and dicts).  String
escaping subtleties are out of scope: none of the verified claims depends on
the exact quoting of string contents. -/
def pyRepr : PyVal → String
  | .str s => "'" ++ s ++ "'"
  | .num q => numRepr q
  | .pybool b => if b then "True" else "False"
  | .pynone => "None"
  | .nil => "[]"
  | .cons h t => "[" ++ pyRepr h ++ pyReprTail t ++ "]"
  | .dnil => "\x7b\x7d"
  | .dcons k v t => "\x7b" ++ "'" ++ k ++ "': " ++ pyRepr v ++ pyReprDTail t ++ "\x7d"

/-- Remaining elements of a list repr, each preceded by a separator. -/
def pyReprTail : PyVal → String
  | .nil => ""
  | .cons h t => ", " ++ pyRepr h ++ pyReprTail t
  | v => ", " ++ pyRepr v

/-- Remaining pairs of a dict repr, each preceded by a separator. -/
def pyReprDTail : PyVal → String
  | .dcons k v t => ", " ++ "'" ++ k ++ "': " ++ pyRepr v ++ pyReprDTail t
  | _ => ""

end

/-- Python `str()` of a value: strings render without quotes, everything else
as its repr. -/
def pyStr : PyVal → String
  | .str s => s
  | v => pyRepr v

end MBW

namespace MBW

/-! ### String ordering and `np.unique`

`np.unique` on an array of strings returns the distinct values sorted
lexicographically by code points.  Core `String` comparison functions do not
reduce in the kernel, so the order is defined directly on character data. -/

/-- Lexicographic less-or-equal on character data by code points. -/
def lexLe : List Char → List Char → Bool
  | [], _ => true
  | _ :: _, [] => false
  | a :: as, b :: bs =>
    if a.toNat < b.toNat then true
    else if b.toNat < a.toNat then false
    else lexLe as bs

/-- Lexicographic less-or-equal on strings (numpy's string order). -/
def strLe (a b : String) : Bool := lexLe a.data b.data

/-- Insert into a `strLe`-sorted list. -/
def insertLe (x : String) : List String → List String
  | [] => [x]
  | y :: ys => if strLe x y then x :: y :: ys else y :: insertLe x ys

/-- Insertion sort by `strLe`. -/
def isort : List String → List String
  | [] => []
  | x :: xs => insertLe x (isort xs)

/-- `np.unique`: the distinct values of the list, sorted by `strLe`. -/
def npUnique (l : List String) : List String := isort l.dedup

/-- `str.lower()` on the characters the wrapper lower-cases (ASCII). -/
def lowerChar (c : Char) : Char :=
  if 65 ≤ c.toNat ∧ c.toNat ≤ 90 then Char.ofNat (c.toNat + 32) else c

/-- `str.lower()`. -/
def lowerStr (s : String) : String := ⟨s.data.map lowerChar⟩

end MBW

namespace MBW

/-! ### Class-level constant tables (`MapBoxWrapper` attributes) -/

/-- `MapBoxWrapper.SOURCE_NAME`. -/
def SOURCE_NAME : String := "all_data"

/-- `MapBoxWrapper.FEATURE_KEYS`. -/
def FEATURE_KEYS : List String := ["id_", "geojson_type", "colour", "properties", "array"]

/-- `MapBoxWrapper.MARGIN`. -/
def MARGIN : ℚ := 1 / 100

/-- `MapBoxWrapper.FILTER_DICT`: classification of the four accepted geometry
type tags into the two geometry families. -/
def FILTER_DICT : String → Option String
  | "Point" => some "Point"
  | "MultiPoint" => some "Point"
  | "LineString" => some "LineString"
  | "MultiLineString" => some "LineString"
  | _ => none

/-- `MapBoxWrapper.LAYER_FILTERS`: the per-family type-equality filter clause. -/
def LAYER_FILTERS : String → Option PyVal
  | "Point" => some (pl [.str "==", .str "$type", .str "Point"])
  | "LineString" => some (pl [.str "==", .str "$type", .str "LineString"])
  | _ => none

/-- Paint table entry for point layers. -/
def paintPoint : PyVal :=
  pd [("circle-color", pl [.str "get", .str "colour"]),
      ("circle-radius", pl [.str "case", pl [.str "has", .str "circle-radius"],
                            pl [.str "get", .str "circle-radius"], .num 3])]

/-- Paint table entry for line layers. -/
def paintLine : PyVal :=
  pd [("line-color", pl [.str "get", .str "colour"]),
      ("line-width", .num 1), ("line-opacity", .num (1 / 2))]

/-- `MapBoxWrapper.LAYER_STYLES`: per-family `(vector_type, paint)`. -/
def LAYER_STYLES : String → Option (String × PyVal)
  | "Point" => some ("circle", paintPoint)
  | "LineString" => some ("line", paintLine)
  | _ => none

end MBW

namespace MBW

/-! ### Templates as segment sequences -/

/-- The placeholder tokens of the main template.  Each constructor stands for
its literal token text (`phText`); the slot placeholders include the blank
line that the marker expansion of `_read_template` places after them. -/
inductive PH where
  | accessToken
  | sourceMarkers
  | layerMarkers
  | fillinSource
  | fillinLayer
  | toggleScript
  | center
  | bounds
deriving DecidableEq

/-- One segment of a template: literal text, or a placeholder token. -/
inductive Seg where
  | lit (s : String)
  | ph (p : PH)
deriving DecidableEq

/-- A template is its sequence of segments. -/
abbrev Tpl := List Seg

/-- The literal token text a placeholder segment stands for. -/
def phText : PH → String
  | .accessToken => "__MAPBOX_ACCESS_TOKEN__"
  | .sourceMarkers => "__SOURCEMARKERS__"
  | .layerMarkers => "__LAYERMARKERS__"
  | .fillinSource => "__FILLINSOURCE__\n\n"
  | .fillinLayer => "__FILLINLAYER__\n\n"
  | .toggleScript => "__FILLINTOGGLESCRIPT__"
  | .center => "__FILLINCENTER__"
  | .bounds => "__FILLINBOUNDS__"

/-- The text of a template. -/
def render (t : Tpl) : String := (t.map fun seg => match seg with
  | .lit s => s
  | .ph p => phText p).foldl (· ++ ·) ""

/-- `re.sub(token, r, t, count=1)`: replace the first occurrence of the
placeholder `p` by the literal `r`; no occurrence leaves `t` unchanged. -/
def subFirst (p : PH) (r : String) : Tpl → Tpl
  | [] => []
  | seg :: rest => if seg = .ph p then .lit r :: rest else seg :: subFirst p r rest

/-- `t.replace(token, r)` / `re.sub(token, r, t)`: replace every occurrence. -/
def replaceAllPh (p : PH) (r : String) (t : Tpl) : Tpl :=
  t.map fun seg => if seg = .ph p then .lit r else seg

/-- Drop every remaining occurrence of the slot placeholder `p` (the strip of
`"__FILLIN...__\n\n"` in `_write_filled_template`). -/
def stripPh (p : PH) (t : Tpl) : Tpl := t.filter (fun seg => seg ≠ .ph p)

/-- `_read_template` (after reading the files): substitute the access token and
expand the two marker tokens into `source_markers` / `layer_markers` repeated
slot placeholder lines. -/
def readTemplate (t : Tpl) (token : String) (source_markers layer_markers : Nat) : Tpl :=
  t.flatMap fun seg => match seg with
    | .ph .accessToken => [.lit token]
    | .ph .sourceMarkers => List.replicate source_markers (.ph .fillinSource)
    | .ph .layerMarkers => List.replicate layer_markers (.ph .fillinLayer)
    | s => [s]

/-- `_write_filled_template` (before the file write): strip every unused source
and layer slot.  The written document is the result. -/
def writeFilled (t : Tpl) : Tpl := stripPh .fillinLayer (stripPh .fillinSource t)

/-- One segment of a toggle-script template file. -/
inductive TSeg where
  | lit (s : String)
  | layerIds
  | layerProperty
deriving DecidableEq

/-- A toggle-script template (the contents of `toggle_template.txt` or
`prefixed_toggle_template.txt`; data files outside `src/`). -/
abbrev ToggleTpl := List TSeg

/-- Fill a toggle template: `__FILLINLAYERIDS__` with `idsStr` and
`__FILLINLAYERPROPERTY__` with `propsStr` (both `str.replace`, all
occurrences). -/
def fillToggle (t : ToggleTpl) (idsStr propsStr : String) : String :=
  (t.map fun seg => match seg with
    | .lit s => s
    | .layerIds => idsStr
    | .layerProperty => propsStr).foldl (· ++ ·) ""

end MBW

namespace MBW

/-! ### Feature registry (`__init__`, `add_feature`) -/

/-- A feature record: the insertion-ordered key/value sequence of the Python
dict passed to `add_feature` (`list(feature)` is `rec.map Prod.fst`). -/
abbrev Record := List (String × PyVal)

/-- `feature[k]`: first binding of `k` in the record. -/
def recGet : Record → String → Option PyVal
  | [], _ => none
  | (k, v) :: rest, key => if k = key then some v else recGet rest key

/-- The mutable state of a `MapBoxWrapper` instance (the fields the verified
claims depend on). -/
structure St where
  template : Tpl
  features : List Record
  geojson_features : List String
  geojson_filter_types : List String
  all_coords : List PyVal
  layers : List String
  layerids : List String
deriving DecidableEq

/-- `__init__`: read and expand the template, start with empty accumulators
(`self.markers` is used for both slot counts). -/
def initState (tpl : Tpl) (token : String) (markers : Nat) : St :=
  { template := readTemplate tpl token markers markers
    features := []
    geojson_features := []
    geojson_filter_types := []
    all_coords := []
    layers := []
    layerids := [] }

/-- Message of the schema error raised by the key check of `add_feature`. -/
def schemaMsg : String :=
  "Features dict must have keys ['id_', 'geojson_type', 'colour', 'properties', 'array']."

/-- `{**{'colour': colour}, **properties}`: the `colour` key first (overridden
in place when `properties` rebinds it), then the remaining keys of
`properties` in their order. -/
def dictMerge (a b : List (String × PyVal)) : List (String × PyVal) :=
  a.map (fun e => (e.1, (b.lookup e.1).getD e.2)) ++
    b.filter (fun e => ¬ (a.map Prod.fst).contains e.1)

/-- `_create_geojson_feature`: format one feature as a geojson text fragment.
Raises `TypeError` when `properties` is not a mapping (the `{**properties}`
expansion) and `AttributeError` when `array` is neither a list nor an array
(the `.tolist()` call). -/
def createGeojsonFeature (array id_ geojson_type properties colour : PyVal) :
    Except Err String :=
  if isPyDict properties then
    let all_props := dictMerge [("colour", colour)] (dictPairs properties)
    if isPyList array then
      .ok ("\x7b'type': 'Feature',\n'id': '" ++ pyStr id_ ++ "',\n'properties': " ++
        pyRepr (pd all_props) ++ ",\n'geometry': \x7b\n\t'type': '" ++ pyStr geojson_type ++
        "',\n\t'coordinates':" ++ pyRepr array ++ "\x7d\n\x7d")
    else .error (.attributeError "object has no attribute 'tolist'")
  else .error (.typeError "argument after ** must be a mapping")

/-- `add_feature`: validate the key list, accumulate coordinates, the record,
its geojson fragment and its geometry family.  The returned state carries the
mutations performed before a raise (Python leaves them in place). -/
def addFeature (st : St) (rec : Record) : St × Option Err :=
  if rec.map Prod.fst = FEATURE_KEYS then
    let array := (recGet rec "array").getD .pynone
    let gtype := (recGet rec "geojson_type").getD .pynone
    let coordE : Except Err (List PyVal) :=
      if gtype ≠ .str "Point" then .ok (ravel array)
      else match pyElems array with
        | some l => .ok l
        | none => .error (.typeError "argument of type non-list is not iterable")
    match coordE with
    | .error e => (st, some e)
    | .ok coord =>
      let st1 := { st with all_coords := st.all_coords ++ coord
                           features := st.features ++ [rec] }
      match createGeojsonFeature array ((recGet rec "id_").getD .pynone) gtype
          ((recGet rec "properties").getD .pynone) ((recGet rec "colour").getD .pynone) with
      | .error e => (st1, some e)
      | .ok frag =>
        let st2 := { st1 with geojson_features := st1.geojson_features ++ [frag] }
        match gtype with
        | .str t =>
          match FILTER_DICT t with
          | some fam =>
            ({ st2 with geojson_filter_types := st2.geojson_filter_types ++ [fam] }, none)
          | none => (st2, some (.keyError t))
        | v => (st2, some (.keyError (pyStr v)))
  else (st, some (.attributeError schemaMsg))

/-- A sequence of `add_feature` calls, stopping at the first raise. -/
def addAll : St → List Record → St × Option Err
  | st, [] => (st, none)
  | st, r :: rs =>
    match addFeature st r with
    | (st', none) => addAll st' rs
    | (st', some e) => (st', some e)

end MBW

namespace MBW

/-! ### Bounds calculator (`_find_center_and_bounds`) -/

/-- The rationals of a coordinate accumulator (`np.array` of the flat
coordinate list); `none` when a non-numeric entry is present. -/
def asRats : List PyVal → Option (List ℚ)
  | [] => some []
  | .num q :: rest => (asRats rest).map (q :: ·)
  | _ => none

/-- `reshape(len // 2, 2)`: consecutive pairs. -/
def toPairs : List ℚ → List (ℚ × ℚ)
  | a :: b :: rest => (a, b) :: toPairs rest
  | _ => []

/-- Minimum of a nonempty list (first element as seed). -/
def listMin : List ℚ → ℚ
  | [] => 0
  | x :: xs => xs.foldl min x

/-- Maximum of a nonempty list (first element as seed). -/
def listMax : List ℚ → ℚ
  | [] => 0
  | x :: xs => xs.foldl max x

/-- `_find_center_and_bounds`: center = arithmetic mean of the coordinate
pairs (lon/lat order); bounds = the minimal enclosing rectangle of the points
(via the folium map's `get_bounds`, which returns
`[[min lat, min lon], [max lat, max lon]]` over the lat/lon-reversed markers),
re-swapped to lon/lat order and padded outward by `MARGIN` on every side.
Fails on a non-numeric, odd-length or empty accumulator (numpy reshape error /
`None`-arithmetic on an empty map's bounds). -/
def findCenterAndBounds (all_coords : List PyVal) :
    Except Err ((ℚ × ℚ) × ((ℚ × ℚ) × (ℚ × ℚ))) :=
  match asRats all_coords with
  | none => .error (.typeError "coordinates must be numeric")
  | some flat =>
    if flat.length % 2 = 0 then
      match toPairs flat with
      | [] => .error (.typeError "unsupported operand type NoneType")
      | ps =>
        let n : ℚ := ps.length
        let lons := ps.map Prod.fst
        let lats := ps.map Prod.snd
        let center := (lons.sum / n, lats.sum / n)
        .ok (center, ((listMin lons - MARGIN, listMin lats - MARGIN),
                      (listMax lons + MARGIN, listMax lats + MARGIN)))
    else .error (.valueError "cannot reshape array")

/-- `str()` of the center pair. -/
def centerStr (c : ℚ × ℚ) : String :=
  "[" ++ numRepr c.1 ++ ", " ++ numRepr c.2 ++ "]"

/-- `str()` of the bounds rectangle. -/
def boundsStr (b : (ℚ × ℚ) × (ℚ × ℚ)) : String :=
  "[[" ++ numRepr b.1.1 ++ ", " ++ numRepr b.1.2 ++ "], [" ++
    numRepr b.2.1 ++ ", " ++ numRepr b.2.2 ++ "]]"

/-- `_add_center_and_bounds` (the template half): replace every
`__FILLINCENTER__` and `__FILLINBOUNDS__` token. -/
def addCenterAndBounds (t : Tpl) (c : ℚ × ℚ) (b : (ℚ × ℚ) × (ℚ × ℚ)) : Tpl :=
  replaceAllPh .bounds (boundsStr b) (replaceAllPh .center (centerStr c) t)

end MBW

namespace MBW

/-! ### Document assembly (`output_html` and its helpers) -/

/-- `_create_geojson_from_features`: join the fragments into one geojson
string definition. -/
def createGeojsonFromFeatures (feats : List String) : String :=
  "\x7b'type': 'geojson'\n, 'data': \x7b'type': 'FeatureCollection',\n'features': [" ++
    String.intercalate ",\n" feats ++ "]\x7d\x7d"

/-- `_create_source`. -/
def createSource (name geojson : String) : String :=
  "map.addSource('" ++ name ++ "', " ++ geojson ++ ");\n        "

/-- `_add_source`: fill the first remaining source slot. -/
def addSource (t : Tpl) (src : String) : Tpl := subFirst .fillinSource (src ++ "\n\n") t

/-- `_add_layer`: fill the next remaining layer slot. -/
def addLayer (t : Tpl) (layer : String) : Tpl := subFirst .fillinLayer (layer ++ "\n\n") t

/-- `_create_layer`: format one `map.addLayer` call. -/
def createLayer (layer_id vector_type source_name : String) (paint : PyVal)
    (filter : PyVal) : String :=
  let filter_placeholder := if truthy filter then ",\n\t\t'filter': " ++ pyRepr filter else ""
  "map.addLayer(\x7b'id': '" ++ layer_id ++ "',\n        'type': '" ++ vector_type ++
    "',\n        'source': '" ++ source_name ++ "',\n        'paint': " ++ pyRepr paint ++
    ",\n        'layout': \x7b'visibility': 'visible'\x7d" ++ filter_placeholder ++
    "\n        \x7d);\n        "

/-- `str(layerids)`: repr of a Python list of strings. -/
def reprStrList (l : List String) : String :=
  "[" ++ String.intercalate ", " (l.map fun s => "'" ++ s ++ "'") ++ "]"

/-- `str(list(prefixes))`: repr of a Python list of values. -/
def reprValList (l : List PyVal) : String :=
  "[" ++ String.intercalate ", " (l.map pyRepr) ++ "]"

/-- `_add_toggle_script`: pick the prefixed toggle template when `prefixes` is
truthy (a nonempty key view), fill its tokens, and replace every
`__FILLINTOGGLESCRIPT__` token of the main template with the result.
`list(prefixes)` raises `TypeError` when `prefixes` is `None` — the default it
receives on the ungrouped path. -/
def addToggleScript (plainT prefT : ToggleTpl) (t : Tpl) (layerids : List String)
    (prefixes : Option (List PyVal)) : Except Err Tpl :=
  let togg := match prefixes with
    | some (_ :: _) => prefT
    | _ => plainT
  match prefixes with
  | none => .error (.typeError "'NoneType' object is not iterable")
  | some l =>
    .ok (replaceAllPh .toggleScript (fillToggle togg (reprStrList layerids) (reprValList l)) t)

/-- Normalisation of the `filters` argument (lines 80–85): a nonempty value
whose first element is not a list is wrapped into a single clause. -/
def normFilters (filters : List PyVal) : List PyVal :=
  match filters with
  | [] => []
  | f :: _ => if isPyList f then filters else [pl filters]

/-- The ungrouped layer loop (lines 111–119): one layer per distinct geometry
family, identifier `<family>_layer`.  The identifier is recorded before the
table lookups of the layer construction, as in the source. -/
def ungroupedLoop (fs : List PyVal) : List String → St → St × Option Err
  | [], st => (st, none)
  | t :: ts, st =>
    let lid := t ++ "_layer"
    let st1 := { st with layerids := st.layerids ++ [lid] }
    match LAYER_FILTERS t with
    | none => (st1, some (.keyError t))
    | some lf =>
      match LAYER_STYLES t with
      | none => (st1, some (.keyError t))
      | some style =>
        let layer := createLayer lid style.1 SOURCE_NAME style.2 (pl ([.str "all", lf] ++ fs))
        let st2 := { st1 with layers := st1.layers ++ [layer]
                              template := addLayer st1.template layer }
        ungroupedLoop fs ts st2

/-- The inner grouped layer loop over the families of one property value:
identifier `<value>_<family lower-cased>` (the `"_".join` raises `TypeError`
on a non-string value). -/
def groupedInner (p : String) (fs : List PyVal) (v : PyVal) :
    List String → St → St × Option Err
  | [], st => (st, none)
  | t :: ts, st =>
    match v with
    | .str vs =>
      let lid := vs ++ "_" ++ lowerStr t
      let st1 := { st with layerids := st.layerids ++ [lid] }
      match LAYER_FILTERS t with
      | none => (st1, some (.keyError t))
      | some lf =>
        match LAYER_STYLES t with
        | none => (st1, some (.keyError t))
        | some style =>
          let layer := createLayer lid style.1 SOURCE_NAME style.2
            (pl ([.str "all", pl [.str "==", .str p, v], lf] ++ fs))
          let st2 := { st1 with layers := st1.layers ++ [layer]
                                template := addLayer st1.template layer }
          groupedInner p fs v ts st2
    | _ => (st, some (.typeError "sequence item 0: expected str instance"))

/-- The grouped layer loop (lines 94–105) over the property dictionary. -/
def groupedLoop (p : String) (fs : List PyVal) :
    List (PyVal × List String) → St → St × Option Err
  | [], st => (st, none)
  | (v, ts) :: rest, st =>
    match groupedInner p fs v ts st with
    | (st', none) => groupedLoop p fs rest st'
    | r => r

/-- Append a family to the bucket of `v`, creating the bucket at the end on
first sight (Python dict insertion order). -/
def addEntry (acc : List (PyVal × List String)) (v : PyVal) (fam : String) :
    List (PyVal × List String) :=
  if v ∈ acc.map Prod.fst then
    acc.map (fun e => if e.1 = v then (e.1, e.2 ++ [fam]) else e)
  else acc ++ [(v, [fam])]

/-- The accumulating fold of `_find_property_types`: append each feature's
geometry family to the bucket of its (truthy) property value, first-seen
value order.  Raises on a non-dict `properties`, a missing key or an
unclassified geometry type, as the source lines do. -/
def fptRaw (prop : String) : List Record → List (PyVal × List String) →
    Except Err (List (PyVal × List String))
  | [], acc => .ok acc
  | feat :: rest, acc =>
    match recGet feat "properties" with
    | none => .error (.keyError "properties")
    | some props =>
      if isPyDict props then
        match dictGet props prop with
        | none => fptRaw prop rest acc
        | some v =>
          if truthy v then
            match recGet feat "geojson_type" with
            | none => .error (.keyError "geojson_type")
            | some (.str t) =>
              match FILTER_DICT t with
              | some fam => fptRaw prop rest (addEntry acc v fam)
              | none => .error (.keyError t)
            | some g => .error (.keyError (pyStr g))
          else fptRaw prop rest acc
      else .error (.attributeError "object has no attribute 'get'")

/-- `_find_property_types`: the fold above, then `np.unique` on every bucket. -/
def findPropertyTypes (feats : List Record) (prop : String) :
    Except Err (List (PyVal × List String)) :=
  (fptRaw prop feats []).map (List.map fun e => (e.1, npUnique e.2))

/-- The state after the center/bounds substitution (lines 78 and 272–275) and
the source insertion (lines 87–89): only the template changes, by the two
token replacements followed by filling the first source slot with the
assembled source definition. -/
def stAfterSource (st : St) (cb : (ℚ × ℚ) × ((ℚ × ℚ) × (ℚ × ℚ))) : St :=
  { st with template := (addSource (addCenterAndBounds st.template cb.1 cb.2)
      (createSource SOURCE_NAME (createGeojsonFromFeatures st.geojson_features))) }

/-- The layer-planning and toggle-script half of `output_html` (lines 91–125),
run on the state already carrying center/bounds and the source: grouped mode
when a grouping property was supplied (Python string truthiness), ungrouped
mode otherwise; then the toggle script, the strip of unused slots and the
write.  The result is the final instance state, the raised exception if any,
and the written document if the write was reached. -/
def outputPlan (plainT prefT : ToggleTpl) (st : St) (layer_property : String)
    (fs : List PyVal) : St × Option Err × Option Tpl :=
  if layer_property = "" then
    match ungroupedLoop fs (npUnique st.geojson_filter_types) st with
    | (st3, some e) => (st3, some e, none)
    | (st3, none) =>
      match addToggleScript plainT prefT st3.template st3.layerids none with
      | .error e => (st3, some e, none)
      | .ok tpl => ({ st3 with template := tpl }, none, some (writeFilled tpl))
  else
    match findPropertyTypes st.features layer_property with
    | .error e => (st, some e, none)
    | .ok prop_dict =>
      match groupedLoop layer_property fs prop_dict st with
      | (st3, some e) => (st3, some e, none)
      | (st3, none) =>
        match addToggleScript plainT prefT st3.template st3.layerids
            (some (prop_dict.map Prod.fst)) with
        | .error e => (st3, some e, none)
        | .ok tpl => ({ st3 with template := tpl }, none, some (writeFilled tpl))

/-- `output_html` after filter normalisation: compute center and bounds (the
errors of an empty, odd or non-numeric accumulator propagate), substitute them
and the source, then run the planning half. -/
def outputCore (plainT prefT : ToggleTpl) (st : St) (layer_property : String)
    (fs : List PyVal) : St × Option Err × Option Tpl :=
  match findCenterAndBounds st.all_coords with
  | .error e => (st, some e, none)
  | .ok cb => outputPlan plainT prefT (stAfterSource st cb) layer_property fs

/-- `output_html(output_path, layer_property, filters)`.  The write to
`output_path` is the third component of the result. -/
def output_html (plainT prefT : ToggleTpl) (st : St) (layer_property : String)
    (filters : List PyVal) : St × Option Err × Option Tpl :=
  outputCore plainT prefT st layer_property (normFilters filters)

end MBW

namespace MBW

/-! ### Specification views of the registry data

Derived read-only views of records, used to state properties of
`_find_property_types` and the layer loops. -/

/-- Membership test for placeholder segments. -/
def Seg.isLit : Seg → Bool
  | .lit _ => true
  | .ph _ => false

/-- The geometry family of a record (`FILTER_DICT[feature['geojson_type']]`). -/
def classOf (rec : Record) : Option String :=
  match recGet rec "geojson_type" with
  | some (.str t) => FILTER_DICT t
  | _ => none

/-- The truthy value of `feature['properties'].get(prop, False)`, when the
properties entry binds `prop` to a truthy value. -/
def truthyProp (rec : Record) (prop : String) : Option PyVal :=
  match recGet rec "properties" with
  | some props =>
    match dictGet props prop with
    | some v => if truthy v then some v else none
    | none => none
  | none => none

/-- Well-formedness established by a successful `add_feature`: a dict
`properties` entry and a classified geometry type. -/
def featWf (rec : Record) : Prop :=
  (∃ props, recGet rec "properties" = some props ∧ isPyDict props = true) ∧
    (∃ t fam, recGet rec "geojson_type" = some (.str t) ∧ FILTER_DICT t = some fam)

/-- The `(value, family)` contribution of one record to the property
dictionary, if any. -/
def hitOf (prop : String) (rec : Record) : Option (PyVal × String) :=
  match truthyProp rec prop, classOf rec with
  | some v, some fam => some (v, fam)
  | _, _ => none

/-- All contributions of a feature list, in feature order. -/
def hitsOf (prop : String) (feats : List Record) : List (PyVal × String) :=
  feats.filterMap (hitOf prop)

/-- The families contributed for the value `v`, in feature order. -/
def famsOf (v : PyVal) (hs : List (PyVal × String)) : List String :=
  (hs.filter (fun h => h.1 = v)).map Prod.snd

/-- Fold a contribution list into a property dictionary. -/
def addEntries (acc : List (PyVal × List String)) (hs : List (PyVal × String)) :
    List (PyVal × List String) :=
  hs.foldl (fun a h => addEntry a h.1 h.2) acc

/-- First-binding lookup in a property dictionary. -/
def lookupA : List (PyVal × List String) → PyVal → Option (List String)
  | [], _ => none
  | (k, ts) :: rest, v => if k = v then some ts else lookupA rest v

end MBW

namespace MBW

/-! ### Concrete fixtures (template, toggle templates, records, sessions)

Used by the counterexample and witness theorems below. -/

/-- A minimal main template: every placeholder token occurs exactly once. -/
def tplFix : Tpl :=
  [.lit "<html>", .ph .accessToken, .ph .center, .ph .bounds, .ph .sourceMarkers,
   .ph .layerMarkers, .ph .toggleScript, .lit "</html>"]

/-- A plain toggle template. -/
def plainFix : ToggleTpl := [.lit "<script>", .layerIds, .lit "</script>"]

/-- A prefixed toggle template. -/
def prefFix : ToggleTpl :=
  [.lit "<script>", .layerIds, .lit ";", .layerProperty, .lit "</script>"]

/-- A point feature carrying `node = "A"`. -/
def recAPoint : Record :=
  [("id_", .str "f1"), ("geojson_type", .str "Point"), ("colour", .str "#00ff00"),
   ("properties", pd [("node", .str "A")]), ("array", pl [.num 0, .num 0])]

/-- A line feature carrying `node = "B"`. -/
def recBLine : Record :=
  [("id_", .str "f2"), ("geojson_type", .str "LineString"), ("colour", .str "#00ff00"),
   ("properties", pd [("node", .str "B")]),
   ("array", pl [pl [.num 0, .num 0], pl [.num 1, .num 1]])]

/-- A point feature carrying `node = "B"`. -/
def recBPoint : Record :=
  [("id_", .str "f3"), ("geojson_type", .str "Point"), ("colour", .str "#00ff00"),
   ("properties", pd [("node", .str "B")]), ("array", pl [.num 1, .num 0])]

/-- A well-formed record with the required keys in a different insertion
order. -/
def recSwapped : Record :=
  [("geojson_type", .str "Point"), ("id_", .str "f1"), ("colour", .str "#00ff00"),
   ("properties", .dnil), ("array", pl [.num 0, .num 0])]

/-- A record missing the `array` key. -/
def recMissing : Record :=
  [("id_", .str "f1"), ("geojson_type", .str "Point"), ("colour", .str "#00ff00"),
   ("properties", .dnil)]

/-- A record whose geometry tag `"Polygon"` is not classified by
`FILTER_DICT`. -/
def recPolygon : Record :=
  [("id_", .str "f4"), ("geojson_type", .str "Polygon"), ("colour", .str "#00ff00"),
   ("properties", .dnil), ("array", pl [pl [.num 0, .num 0], pl [.num 1, .num 1]])]

/-- A line feature tracing the unit square (lon/lat pairs). -/
def recSquare : Record :=
  [("id_", .str "sq"), ("geojson_type", .str "LineString"), ("colour", .str "#00ff00"),
   ("properties", .dnil),
   ("array", pl [pl [.num 0, .num 0], pl [.num 1, .num 0], pl [.num 1, .num 1],
                 pl [.num 0, .num 1]])]

/-- A session with one registered point feature. -/
def stOne : St := (addAll (initState tplFix "tok" 4) [recAPoint]).1

/-- A session with three registered features (`A`/Point, `B`/LineString,
`B`/Point). -/
def stThree : St := (addAll (initState tplFix "tok" 4) [recAPoint, recBLine, recBPoint]).1

/-- A session with the unit-square line feature registered. -/
def stSquare : St := (addAll (initState tplFix "tok" 4) [recSquare]).1

/-- The flat coordinate accumulator of the unit square. -/
def squareFlat : List PyVal :=
  [.num 0, .num 0, .num 1, .num 0, .num 1, .num 1, .num 0, .num 1]

end MBW

namespace MBW

/-! ### Properties of the string order and of `npUnique` -/

theorem lexLe_total (a b : List Char) : lexLe a b = true ∨ lexLe b a = true := by
  induction a generalizing b with
  | nil => exact Or.inl rfl
  | cons x xs ih =>
    cases b with
    | nil => exact Or.inr rfl
    | cons y ys =>
      rcases Nat.lt_trichotomy x.toNat y.toNat with h | h | h
      · left; simp [lexLe, h]
      · rcases ih ys with h' | h'
        · left; simp [lexLe, h, h']
        · right; simp [lexLe, h.symm, h']
      · right; simp [lexLe, h]

theorem lexLe_trans {a b c : List Char} (h1 : lexLe a b = true) (h2 : lexLe b c = true) :
    lexLe a c = true := by
  induction a generalizing b c with
  | nil => rfl
  | cons x xs ih =>
    cases b with
    | nil => simp [lexLe] at h1
    | cons y ys =>
      cases c with
      | nil => simp [lexLe] at h2
      | cons z zs =>
        simp only [lexLe] at h1 h2 ⊢
        by_cases hxy : x.toNat < y.toNat
        · by_cases hyz : y.toNat < z.toNat
          · simp [Nat.lt_trans hxy hyz]
          · by_cases hzy : z.toNat < y.toNat
            · rw [if_neg hyz, if_pos hzy] at h2
              exact absurd h2 Bool.false_ne_true
            · simp [show x.toNat < z.toNat by omega]
        · by_cases hyx : y.toNat < x.toNat
          · rw [if_neg hxy, if_pos hyx] at h1
            exact absurd h1 Bool.false_ne_true
          · rw [if_neg hxy, if_neg hyx] at h1
            by_cases hyz : y.toNat < z.toNat
            · simp [show x.toNat < z.toNat by omega]
            · by_cases hzy : z.toNat < y.toNat
              · rw [if_neg hyz, if_pos hzy] at h2
                exact absurd h2 Bool.false_ne_true
              · rw [if_neg hyz, if_neg hzy] at h2
                rw [if_neg (by omega), if_neg (by omega)]
                exact ih h1 h2

theorem lexLe_antisymm {a b : List Char} (h1 : lexLe a b = true) (h2 : lexLe b a = true) :
    a = b := by
  induction a generalizing b with
  | nil =>
    cases b with
    | nil => rfl
    | cons y ys => simp [lexLe] at h2
  | cons x xs ih =>
    cases b with
    | nil => simp [lexLe] at h1
    | cons y ys =>
      simp only [lexLe] at h1 h2
      rcases Nat.lt_trichotomy x.toNat y.toNat with h | h | h
      · rw [if_neg (by omega), if_pos h] at h2
        exact absurd h2 Bool.false_ne_true
      · rw [if_neg (by omega), if_neg (by omega)] at h1 h2
        have hx : x = y := Char.ext (UInt32.toNat.inj h)
        rw [hx, ih h1 h2]
      · rw [if_neg (by omega), if_pos h] at h1
        exact absurd h1 Bool.false_ne_true

theorem strLe_total (a b : String) : strLe a b = true ∨ strLe b a = true :=
  lexLe_total a.data b.data

theorem strLe_trans {a b c : String} (h1 : strLe a b = true) (h2 : strLe b c = true) :
    strLe a c = true := lexLe_trans h1 h2

theorem strLe_antisymm {a b : String} (h1 : strLe a b = true) (h2 : strLe b a = true) :
    a = b := String.ext (lexLe_antisymm h1 h2)

theorem mem_insertLe {x a : String} {l : List String} :
    a ∈ insertLe x l ↔ a = x ∨ a ∈ l := by
  induction l with
  | nil => simp [insertLe]
  | cons y ys ih =>
    by_cases h : strLe x y = true
    · simp [insertLe, h]
    · simp only [insertLe, if_neg h, List.mem_cons, ih]
      tauto

theorem insertLe_sorted {x : String} {l : List String}
    (h : l.Pairwise (fun a b => strLe a b = true)) :
    (insertLe x l).Pairwise (fun a b => strLe a b = true) := by
  induction l with
  | nil => simp [insertLe]
  | cons y ys ih =>
    rcases List.pairwise_cons.mp h with ⟨hy, hys⟩
    by_cases hxy : strLe x y = true
    · rw [insertLe, if_pos hxy]
      refine List.pairwise_cons.mpr ⟨?_, h⟩
      intro z hz
      rcases List.mem_cons.mp hz with rfl | hz
      · exact hxy
      · exact strLe_trans hxy (hy z hz)
    · have hyx : strLe y x = true := (strLe_total x y).resolve_left hxy
      rw [insertLe, if_neg hxy]
      refine List.pairwise_cons.mpr ⟨?_, ih hys⟩
      intro z hz
      rcases mem_insertLe.mp hz with rfl | hz
      · exact hyx
      · exact hy z hz

theorem insertLe_nodup {x : String} {l : List String} (hx : x ∉ l) (h : l.Nodup) :
    (insertLe x l).Nodup := by
  induction l with
  | nil => simp [insertLe]
  | cons y ys ih =>
    rcases List.nodup_cons.mp h with ⟨hy, hys⟩
    by_cases hxy : strLe x y = true
    · rw [insertLe, if_pos hxy]
      exact List.nodup_cons.mpr ⟨hx, h⟩
    · have hxys : x ∉ ys := fun hm => hx (List.mem_cons_of_mem _ hm)
      rw [insertLe, if_neg hxy]
      refine List.nodup_cons.mpr ⟨?_, ih hxys hys⟩
      intro hm
      rcases mem_insertLe.mp hm with rfl | hm
      · exact hx (List.mem_cons_self _ _)
      · exact hy hm

theorem mem_isort {a : String} {l : List String} : a ∈ isort l ↔ a ∈ l := by
  induction l with
  | nil => simp [isort]
  | cons x xs ih => simp [isort, mem_insertLe, ih]

theorem isort_sorted (l : List String) :
    (isort l).Pairwise (fun a b => strLe a b = true) := by
  induction l with
  | nil => simp [isort]
  | cons x xs ih => exact insertLe_sorted ih

theorem isort_nodup {l : List String} (h : l.Nodup) : (isort l).Nodup := by
  induction l with
  | nil => simp [isort]
  | cons x xs ih =>
    rcases List.nodup_cons.mp h with ⟨hx, hxs⟩
    exact insertLe_nodup (fun hm => hx (mem_isort.mp hm)) (ih hxs)

theorem mem_npUnique {a : String} {l : List String} : a ∈ npUnique l ↔ a ∈ l := by
  simp [npUnique, mem_isort, List.mem_dedup]

theorem npUnique_nodup (l : List String) : (npUnique l).Nodup :=
  isort_nodup (List.nodup_dedup l)

theorem npUnique_sorted (l : List String) :
    (npUnique l).Pairwise (fun a b => strLe a b = true) := isort_sorted _

/-- Sorted lists without duplicates are determined by their members. -/
theorem sorted_nodup_ext : ∀ {l1 l2 : List String},
    l1.Pairwise (fun a b => strLe a b = true) → l1.Nodup →
    l2.Pairwise (fun a b => strLe a b = true) → l2.Nodup →
    (∀ a, a ∈ l1 ↔ a ∈ l2) → l1 = l2 := by
  intro l1
  induction l1 with
  | nil =>
    intro l2 _ _ _ _ hmem
    cases l2 with
    | nil => rfl
    | cons y ys => exact absurd ((hmem y).mpr (List.mem_cons_self _ _)) (by simp)
  | cons x xs ih =>
    intro l2 hs1 hn1 hs2 hn2 hmem
    cases l2 with
    | nil => exact absurd ((hmem x).mp (List.mem_cons_self _ _)) (by simp)
    | cons y ys =>
      rcases List.pairwise_cons.mp hs1 with ⟨hx1, hxs1⟩
      rcases List.pairwise_cons.mp hs2 with ⟨hy2, hys2⟩
      rcases List.nodup_cons.mp hn1 with ⟨hnx, hnxs⟩
      rcases List.nodup_cons.mp hn2 with ⟨hny, hnys⟩
      have hxy : x = y := by
        rcases List.mem_cons.mp ((hmem x).mp (List.mem_cons_self _ _)) with h | h
        · exact h
        · rcases List.mem_cons.mp ((hmem y).mpr (List.mem_cons_self _ _)) with h' | h'
          · exact h'.symm
          · exact strLe_antisymm (hx1 y h') (hy2 x h)
      subst hxy
      have hmem' : ∀ a, a ∈ xs ↔ a ∈ ys := by
        intro a
        constructor
        · intro ha
          rcases List.mem_cons.mp ((hmem a).mp (List.mem_cons_of_mem _ ha)) with rfl | h
          · exact absurd ha hnx
          · exact h
        · intro ha
          rcases List.mem_cons.mp ((hmem a).mpr (List.mem_cons_of_mem _ ha)) with rfl | h
          · exact absurd ha hny
          · exact h
      rw [ih hxs1 hnxs hys2 hnys hmem']

/-- `npUnique` depends only on the set of values. -/
theorem npUnique_eq_of_mem_iff {l1 l2 : List String} (h : ∀ a, a ∈ l1 ↔ a ∈ l2) :
    npUnique l1 = npUnique l2 :=
  sorted_nodup_ext (npUnique_sorted l1) (npUnique_nodup l1) (npUnique_sorted l2)
    (npUnique_nodup l2) (by simp [mem_npUnique, h])

end MBW

namespace MBW

/-! ### Inversion lemmas for `add_feature` and `addAll` -/

/-- A key list differing from `FEATURE_KEYS` raises the schema error before
any mutation. -/
theorem addFeature_keys_ne {st : St} {rec : Record}
    (hk : rec.map Prod.fst ≠ FEATURE_KEYS) :
    addFeature st rec = (st, some (.attributeError schemaMsg)) := by
  unfold addFeature
  rw [if_neg hk]

/-- A key present in a record's key list has a binding. -/
theorem recGet_eq_some_of_mem (rec : Record) (k : String)
    (h : k ∈ rec.map Prod.fst) : ∃ v, recGet rec k = some v := by
  induction rec with
  | nil => simp at h
  | cons e rest ih =>
    by_cases hk : e.1 = k
    · exact ⟨e.2, by simp [recGet, hk]⟩
    · simp only [List.map_cons, List.mem_cons] at h
      rcases h with h1 | h1
      · exact absurd h1.symm hk
      · rcases ih h1 with ⟨v, hv⟩
        exact ⟨v, by simp [recGet, hk, hv]⟩

/-- With the key list matching, the schema error is never raised (any later
raise is a different exception). -/
theorem addFeature_no_schema_of_keys_eq {st : St} {rec : Record}
    (hk : rec.map Prod.fst = FEATURE_KEYS) :
    (addFeature st rec).2 ≠ some (.attributeError schemaMsg) := by
  intro h
  simp only [addFeature, if_pos hk] at h
  split at h
  · next e heq =>
    rw [Option.some_inj] at h
    subst h
    split at heq
    · exact absurd heq (by simp)
    · split at heq
      · exact absurd heq (by simp)
      · simp only [Except.error.injEq] at heq
        exact absurd heq (by decide)
  · split at h
    · next e heq =>
      rw [Option.some_inj] at h
      subst h
      unfold createGeojsonFeature at heq
      split at heq
      · split at heq
        · exact absurd heq (by simp)
        · simp only [Except.error.injEq, Err.attributeError.injEq] at heq
          exact absurd heq (by decide)
      · simp only [Except.error.injEq] at heq
        exact absurd heq (by simp)
    · split at h
      · split at h
        · simp at h
        · simp at h
      · simp at h

/-- Successful `add_feature`: key list matched, the record is well-formed, and
the state grows by exactly this record, its fragment and its family; the
output-planning fields are untouched. -/
theorem addFeature_ok {st st' : St} {rec : Record}
    (h : addFeature st rec = (st', none)) :
    rec.map Prod.fst = FEATURE_KEYS ∧ featWf rec ∧
      (∃ fam, classOf rec = some fam ∧
        st'.geojson_filter_types = st.geojson_filter_types ++ [fam]) ∧
      st'.features = st.features ++ [rec] ∧
      st'.layerids = st.layerids ∧ st'.layers = st.layers ∧
      st'.template = st.template := by
  by_cases hk : rec.map Prod.fst = FEATURE_KEYS
  · obtain ⟨pv, hpv⟩ := recGet_eq_some_of_mem rec "properties" (by rw [hk]; decide)
    obtain ⟨gv, hgv⟩ := recGet_eq_some_of_mem rec "geojson_type" (by rw [hk]; decide)
    simp only [addFeature, if_pos hk, hpv, hgv, Option.getD_some] at h
    split at h
    · simp at h
    · next coord hcoord =>
      split at h
      · simp at h
      · next frag hfrag =>
        have hdict : isPyDict pv = true := by
          unfold createGeojsonFeature at hfrag
          split at hfrag
          · next hd => exact hd
          · exact absurd hfrag (by simp)
        split at h
        · next t =>
          split at h
          · next fam hfam =>
            simp only [Prod.mk.injEq] at h
            refine ⟨hk, ⟨⟨pv, hpv, hdict⟩, ⟨t, fam, hgv, hfam⟩⟩, ⟨fam, ?_, ?_⟩,
              ?_, ?_, ?_, ?_⟩
            · simp [classOf, hgv, hfam]
            · rw [← h.1]
            · rw [← h.1]
            · rw [← h.1]
            · rw [← h.1]
            · rw [← h.1]
          · simp at h
        all_goals simp at h
  · simp only [addFeature, if_neg hk] at h
    simp at h

/-- `addAll` success: the features accumulate in order, every record is
well-formed, the family list grows by the classifications, and the output
fields are untouched. -/
theorem addAll_ok {recs : List Record} : ∀ {st st' : St},
    addAll st recs = (st', none) →
    st'.features = st.features ++ recs ∧
      st'.geojson_filter_types = st.geojson_filter_types ++ recs.filterMap classOf ∧
      st'.layerids = st.layerids ∧ st'.layers = st.layers ∧
      st'.template = st.template ∧ (∀ r ∈ recs, featWf r) := by
  induction recs with
  | nil =>
    intro st st' h
    simp only [addAll, Prod.mk.injEq] at h
    simp [← h.1]
  | cons r rs ih =>
    intro st st' h
    unfold addAll at h
    split at h
    · next st1 heq =>
      rcases ih h with ⟨h1, h2, h3, h4, h5, h6⟩
      rcases addFeature_ok heq with ⟨_, hwf, ⟨fam, hfam, hgft⟩, hfe, hli, hla, htp⟩
      refine ⟨by simp [h1, hfe], ?_, by rw [h3, hli], by rw [h4, hla], by rw [h5, htp], ?_⟩
      · rw [h2, hgft, List.filterMap_cons, hfam]
        simp
      · intro x hx
        rcases List.mem_cons.mp hx with rfl | hx
        · exact hwf
        · exact h6 x hx
    · next st1 e heq => simp at h

end MBW

namespace MBW

/-! ### Claims C1, C2, C6, C7, C8, C9 -/

/-- C1: The claim states that with at least one registered feature and no
grouping property, `output_html` fills the plain toggle template with the
layer identifiers and writes the document.  The code instead always raises:
`_add_toggle_script` evaluates `list(prefixes)` with its default
`prefixes=None` on this path, a `TypeError`, before the write is reached.
At the concrete failing session (one registered point feature, empty filter
list) the call returns the `TypeError` and no document. -/
theorem C1_ungrouped_output_raises_before_write :
    (output_html plainFix prefFix stOne "" []).2.1
        = some (.typeError "'NoneType' object is not iterable") ∧
      (output_html plainFix prefFix stOne "" []).2.2 = none :=
  ⟨by decide, by decide⟩

/-- C2 counterexample: a record whose key set equals the required set but in a
different insertion order is rejected with the schema error, refuting the
claimed order-insensitivity (the check is `list(feature) == FEATURE_KEYS`,
an order-sensitive list comparison). -/
theorem C2_counterexample_reordered_keys_rejected :
    (recSwapped.map Prod.fst).Perm FEATURE_KEYS ∧
      recSwapped.map Prod.fst ≠ FEATURE_KEYS ∧
      addFeature (initState tplFix "tok" 4) recSwapped
        = (initState tplFix "tok" 4, some (.attributeError schemaMsg)) :=
  ⟨by decide, by decide, by decide⟩

/-- C2 (amended): `add_feature` raises the schema error exactly when the
record's ordered key list differs from the fixed key list
`['id_', 'geojson_type', 'colour', 'properties', 'array']`; in particular a
record with the right key set in a different order is also rejected, and when
the ordered key lists match the schema error is never raised. -/
theorem C2_schema_error_iff_ordered_key_list_differs (st : St) (rec : Record) :
    (addFeature st rec).2 = some (.attributeError schemaMsg)
      ↔ rec.map Prod.fst ≠ FEATURE_KEYS := by
  constructor
  · intro h heq
    exact addFeature_no_schema_of_keys_eq heq h
  · intro hne
    rw [addFeature_keys_ne hne]

/-- C6: two sessions built over the same template, token and toggle files by
identical `add_feature` sequences and given identical `output` arguments
produce identical results, and in particular byte-for-byte identical rendered
documents. -/
theorem C6_output_deterministic (tpl : Tpl) (token : String) (markers : Nat)
    (plainT prefT : ToggleTpl) (recs : List Record) (p : String) (fs : List PyVal)
    (s1 s2 : St)
    (h1 : s1 = (addAll (initState tpl token markers) recs).1)
    (h2 : s2 = (addAll (initState tpl token markers) recs).1) :
    output_html plainT prefT s1 p fs = output_html plainT prefT s2 p fs ∧
      ((output_html plainT prefT s1 p fs).2.2).map render
        = ((output_html plainT prefT s2 p fs).2.2).map render := by
  subst h1
  subst h2
  exact ⟨rfl, rfl⟩

theorem C6_output_deterministic_witness :
    output_html plainFix prefFix stThree "node" []
        = output_html plainFix prefFix stThree "node" [] ∧
      ((output_html plainFix prefFix stThree "node" []).2.2).map render
        = ((output_html plainFix prefFix stThree "node" []).2.2).map render :=
  C6_output_deterministic tplFix "tok" 4 plainFix prefFix
    [recAPoint, recBLine, recBPoint] "node" [] stThree stThree rfl rfl

/-- C7: a record whose key set differs from the required set (a key missing or
an extra key present) is rejected with the schema error and the state is left
completely unchanged — the raise happens before any mutation. -/
theorem C7_schema_error_leaves_state_unchanged (st : St) (rec : Record)
    (h : ∃ k, (k ∈ FEATURE_KEYS ∧ k ∉ rec.map Prod.fst)
        ∨ (k ∈ rec.map Prod.fst ∧ k ∉ FEATURE_KEYS)) :
    addFeature st rec = (st, some (.attributeError schemaMsg)) := by
  apply addFeature_keys_ne
  intro heq
  rcases h with ⟨k, ⟨hin, hout⟩ | ⟨hin, hout⟩⟩
  · rw [heq] at hout
    exact hout hin
  · rw [heq] at hin
    exact hout hin

theorem C7_schema_error_leaves_state_unchanged_witness :
    (∃ k, (k ∈ FEATURE_KEYS ∧ k ∉ recMissing.map Prod.fst)
        ∨ (k ∈ recMissing.map Prod.fst ∧ k ∉ FEATURE_KEYS)) ∧
      addFeature (initState tplFix "tok" 4) recMissing
        = (initState tplFix "tok" 4, some (.attributeError schemaMsg)) :=
  ⟨⟨"array", Or.inl (by decide)⟩,
    C7_schema_error_leaves_state_unchanged _ _ ⟨"array", Or.inl (by decide)⟩⟩

/-- C8: a record passing the key check whose geometry tag is not one of the
four classified type names raises the key-lookup error only after mutating:
the record is appended to the feature list, its (ravelled) coordinates to the
coordinate accumulator and its fragment to the fragment list, while the
geometry-family list is left ungrown — the failed call is not atomic. -/
theorem C8_unclassified_type_mutates_before_raise (st : St) (rec : Record)
    (t : String) (arr pv : PyVal)
    (hk : rec.map Prod.fst = FEATURE_KEYS)
    (harr : recGet rec "array" = some arr) (harrL : isPyList arr = true)
    (hpv : recGet rec "properties" = some pv) (hpvD : isPyDict pv = true)
    (ht : recGet rec "geojson_type" = some (.str t))
    (hbad : FILTER_DICT t = none) :
    ∃ frag, createGeojsonFeature arr ((recGet rec "id_").getD .pynone) (.str t) pv
        ((recGet rec "colour").getD .pynone) = .ok frag ∧
      addFeature st rec =
        ({ st with all_coords := st.all_coords ++ ravel arr
                   features := st.features ++ [rec]
                   geojson_features := st.geojson_features ++ [frag] },
          some (.keyError t)) := by
  have ht' : t ≠ "Point" := by
    intro he
    subst he
    simp [FILTER_DICT] at hbad
  obtain ⟨frag, hfrag⟩ : ∃ frag,
      createGeojsonFeature arr ((recGet rec "id_").getD .pynone) (.str t) pv
        ((recGet rec "colour").getD .pynone) = .ok frag := by
    cases hE : createGeojsonFeature arr ((recGet rec "id_").getD .pynone) (.str t) pv
        ((recGet rec "colour").getD .pynone) with
    | error e =>
      exfalso
      unfold createGeojsonFeature at hE
      rw [if_pos hpvD, if_pos harrL] at hE
      simp at hE
    | ok frag => exact ⟨frag, rfl⟩
  refine ⟨frag, hfrag, ?_⟩
  simp only [addFeature, if_pos hk, harr, ht, hpv, Option.getD_some]
  rw [if_pos (by simp [ht'])]
  simp only [hfrag, hbad]

theorem C8_unclassified_type_mutates_before_raise_witness :
    ∃ frag, createGeojsonFeature (pl [pl [.num 0, .num 0], pl [.num 1, .num 1]])
        ((recGet recPolygon "id_").getD .pynone) (.str "Polygon") .dnil
        ((recGet recPolygon "colour").getD .pynone) = .ok frag ∧
      addFeature (initState tplFix "tok" 4) recPolygon =
        ({ initState tplFix "tok" 4 with
            all_coords := (initState tplFix "tok" 4).all_coords
              ++ ravel (pl [pl [.num 0, .num 0], pl [.num 1, .num 1]])
            features := (initState tplFix "tok" 4).features ++ [recPolygon]
            geojson_features := (initState tplFix "tok" 4).geojson_features ++ [frag] },
          some (.keyError "Polygon")) :=
  C8_unclassified_type_mutates_before_raise (initState tplFix "tok" 4) recPolygon
    "Polygon" (pl [pl [.num 0, .num 0], pl [.num 1, .num 1]]) .dnil
    (by decide) (by decide) (by decide) (by decide) (by decide) (by decide) (by decide)

/-- C9: passing the extra filters argument as the single flat clause
`["==", "a", 1]` produces exactly the same result (layer filter expressions,
state and final document) as passing the one-element clause list
`[["==", "a", 1]]`: the flat clause is wrapped before being conjoined. -/
theorem C9_flat_clause_equals_wrapped_clause (plainT prefT : ToggleTpl) (st : St)
    (p : String) :
    output_html plainT prefT st p [.str "==", .str "a", .num 1]
      = output_html plainT prefT st p [pl [.str "==", .str "a", .num 1]] := rfl

end MBW

namespace MBW

/-- C10: with the registered coordinates forming the unit square
`[(0,0), (1,0), (1,1), (0,1)]`, the bounds calculation returns the rectangle
with corners `(0 - MARGIN, 0 - MARGIN)` and `(1 + MARGIN, 1 + MARGIN)` in its
native (lon/lat) axis order, and the center is the arithmetic mean of the
coordinate pairs, exactly `(1/2, 1/2)`. -/
theorem C10_unit_square_center_and_bounds :
    stSquare.all_coords = squareFlat ∧
      findCenterAndBounds squareFlat =
        .ok (((1 : ℚ)/2, (1 : ℚ)/2),
          ((0 - MARGIN, 0 - MARGIN), (1 + MARGIN, 1 + MARGIN))) := by
  constructor
  · rfl
  · norm_num [findCenterAndBounds, squareFlat, asRats, toPairs, listMin, listMax, List.foldl]

end MBW


namespace MBW

/-! ### The ungrouped layer loop and claim C4 -/

theorem FILTER_DICT_range {t fam : String} (h : FILTER_DICT t = some fam) :
    fam = "Point" ∨ fam = "LineString" := by
  unfold FILTER_DICT at h
  split at h <;> simp_all

theorem stAfterSource_filter_types (st : St) (cb : (ℚ × ℚ) × ((ℚ × ℚ) × (ℚ × ℚ))) :
    (stAfterSource st cb).geojson_filter_types = st.geojson_filter_types := rfl

theorem stAfterSource_layerids (st : St) (cb : (ℚ × ℚ) × ((ℚ × ℚ) × (ℚ × ℚ))) :
    (stAfterSource st cb).layerids = st.layerids := rfl

theorem stAfterSource_features (st : St) (cb : (ℚ × ℚ) × ((ℚ × ℚ) × (ℚ × ℚ))) :
    (stAfterSource st cb).features = st.features := rfl

/-- One step of the ungrouped loop when the family is classified. -/
theorem ungroupedLoop_cons {fs : List PyVal} {t : String} {ts : List String} {st : St}
    {lf : PyVal} {style : String × PyVal}
    (hlf : LAYER_FILTERS t = some lf) (hls : LAYER_STYLES t = some style) :
    ungroupedLoop fs (t :: ts) st = ungroupedLoop fs ts
      { st with
          layerids := st.layerids ++ [t ++ "_layer"]
          layers := (st.layers ++ [createLayer (t ++ "_layer") style.1 SOURCE_NAME style.2
            (pl ([.str "all", lf] ++ fs))])
          template := (addLayer st.template (createLayer (t ++ "_layer") style.1 SOURCE_NAME
            style.2 (pl ([.str "all", lf] ++ fs)))) } := by
  simp only [ungroupedLoop, hlf, hls]

theorem ungroupedLoop_ok (fs : List PyVal) : ∀ (l : List String) (st : St),
    (∀ t ∈ l, t = "Point" ∨ t = "LineString") →
    (ungroupedLoop fs l st).2 = none ∧
      (ungroupedLoop fs l st).1.layerids = st.layerids ++ l.map (· ++ "_layer") := by
  intro l
  induction l with
  | nil => intro st _; simp [ungroupedLoop]
  | cons t ts ih =>
    intro st hl
    obtain ⟨lf, hlf⟩ : ∃ lf, LAYER_FILTERS t = some lf := by
      rcases hl t (List.mem_cons_self _ _) with rfl | rfl
      · exact ⟨_, rfl⟩
      · exact ⟨_, rfl⟩
    obtain ⟨style, hls⟩ : ∃ s, LAYER_STYLES t = some s := by
      rcases hl t (List.mem_cons_self _ _) with rfl | rfl
      · exact ⟨_, rfl⟩
      · exact ⟨_, rfl⟩
    rw [ungroupedLoop_cons hlf hls]
    rcases ih _ (fun x hx => hl x (List.mem_cons_of_mem _ hx)) with ⟨h1, h2⟩
    refine ⟨h1, ?_⟩
    rw [h2]
    simp

/-- C4: in ungrouped mode, over a session built by successful registrations of
a nonempty record list (with computable bounds), the generated layer
identifiers are exactly `<family>_layer` for the distinct geometry families of
the registered features, without duplicates, listed as the `np.unique`-sorted
family list suffixed with `_layer`. -/
theorem C4_ungrouped_layer_identifiers (tpl : Tpl) (token : String) (markers : Nat)
    (plainT prefT : ToggleTpl) (recs : List Record) (st : St) (fs : List PyVal)
    (hst : st = (addAll (initState tpl token markers) recs).1)
    (hok : (addAll (initState tpl token markers) recs).2 = none)
    (hne : recs ≠ [])
    (hcb : ∃ cb, findCenterAndBounds st.all_coords = .ok cb) :
    (∀ lid, lid ∈ (output_html plainT prefT st "" fs).1.layerids ↔
        ∃ fam, (∃ r ∈ recs, classOf r = some fam) ∧ lid = fam ++ "_layer") ∧
      (output_html plainT prefT st "" fs).1.layerids.Nodup ∧
      (output_html plainT prefT st "" fs).1.layerids
        = (npUnique st.geojson_filter_types).map (· ++ "_layer") ∧
      (npUnique st.geojson_filter_types).Pairwise (fun a b => strLe a b = true) := by
  have hall : addAll (initState tpl token markers) recs = (st, none) := by
    rw [hst, ← hok]
  rcases addAll_ok hall with ⟨hfe, hgft, hli, hla, htp, hwf⟩
  simp only [initState] at hgft hli
  rw [List.nil_append] at hgft
  obtain ⟨cb, hcbe⟩ := hcb
  have hfam : ∀ f ∈ st.geojson_filter_types, f = "Point" ∨ f = "LineString" := by
    intro f hf
    rw [hgft] at hf
    rcases List.mem_filterMap.mp hf with ⟨r, _, hr⟩
    unfold classOf at hr
    split at hr
    · exact FILTER_DICT_range hr
    · simp at hr
  have hloop := ungroupedLoop_ok (normFilters fs) (npUnique st.geojson_filter_types)
    (stAfterSource st cb) (fun t ht => hfam t (mem_npUnique.mp ht))
  rcases hloop with ⟨h2, hids⟩
  have hout : (output_html plainT prefT st "" fs).1.layerids
      = st.layerids ++ (npUnique st.geojson_filter_types).map (· ++ "_layer") := by
    simp only [output_html, outputCore, hcbe]
    simp only [outputPlan, if_pos rfl, stAfterSource_filter_types]
    rcases E : ungroupedLoop (normFilters fs) (npUnique st.geojson_filter_types)
        (stAfterSource st cb) with ⟨st3, e⟩
    rw [E] at h2 hids
    simp only at h2
    subst h2
    simp only [addToggleScript, if_true]
    simp only at hids
    rw [stAfterSource_layerids] at hids
    exact hids
  rw [hout, hli]
  rw [List.nil_append]
  refine ⟨?_, ?_, rfl, npUnique_sorted _⟩
  · intro lid
    constructor
    · intro h
      rcases List.mem_map.mp h with ⟨fam, hfm, rfl⟩
      refine ⟨fam, ?_, rfl⟩
      have hm := mem_npUnique.mp hfm
      rw [hgft] at hm
      rcases List.mem_filterMap.mp hm with ⟨r, hr, hcr⟩
      exact ⟨r, hr, hcr⟩
    · rintro ⟨fam, ⟨r, hr, hcr⟩, rfl⟩
      apply List.mem_map.mpr
      refine ⟨fam, ?_, rfl⟩
      apply mem_npUnique.mpr
      rw [hgft]
      exact List.mem_filterMap.mpr ⟨r, hr, hcr⟩
  · refine List.Nodup.map ?_ (npUnique_nodup _)
    intro a b hab
    have hd := congrArg String.data hab
    rw [String.data_append, String.data_append] at hd
    exact String.ext (List.append_cancel_right hd)

theorem C4_ungrouped_layer_identifiers_witness :
    ("Point_layer" ∈ (output_html plainFix prefFix stThree "" []).1.layerids ↔
        ∃ fam, (∃ r ∈ [recAPoint, recBLine, recBPoint], classOf r = some fam) ∧
          "Point_layer" = fam ++ "_layer") ∧
      (output_html plainFix prefFix stThree "" []).1.layerids.Nodup := by
  have h := C4_ungrouped_layer_identifiers tplFix "tok" 4 plainFix prefFix
    [recAPoint, recBLine, recBPoint] stThree [] rfl (by decide) (by simp) ⟨_, rfl⟩
  exact ⟨h.1 "Point_layer", h.2.1⟩

end MBW

namespace MBW

/-! ### The property dictionary fold of `_find_property_types` -/

theorem lookupA_append (a b : List (PyVal × List String)) (w : PyVal) :
    lookupA (a ++ b) w =
      match lookupA a w with
      | some ts => some ts
      | none => lookupA b w := by
  induction a with
  | nil => simp [lookupA]
  | cons e rest ih =>
    rcases e with ⟨k, ts⟩
    by_cases h : k = w
    · simp [lookupA, h]
    · simp [lookupA, h, ih]

theorem lookupA_eq_none_iff {d : List (PyVal × List String)} {w : PyVal} :
    lookupA d w = none ↔ w ∉ d.map Prod.fst := by
  induction d with
  | nil => simp [lookupA]
  | cons e rest ih =>
    rcases e with ⟨k, ts⟩
    by_cases h : k = w
    · simp [lookupA, h]
    · rw [lookupA, if_neg h, ih]
      simp only [List.map_cons, List.mem_cons]
      constructor
      · intro hn hor
        rcases hor with rfl | hm
        · exact h rfl
        · exact hn hm
      · intro hn hm
        exact hn (Or.inr hm)

theorem lookupA_mapUpdate (acc : List (PyVal × List String)) (v : PyVal) (fam : String)
    (w : PyVal) :
    lookupA (acc.map (fun e => if e.1 = v then (e.1, e.2 ++ [fam]) else e)) w
      = if w = v then (lookupA acc v).map (· ++ [fam]) else lookupA acc w := by
  induction acc with
  | nil => by_cases h : w = v <;> simp [lookupA, h]
  | cons e rest ih =>
    rcases e with ⟨k, ts⟩
    simp only [List.map_cons]
    by_cases hkv : k = v
    · rw [if_pos hkv]
      by_cases hwv : w = v
      · subst hwv
        rw [if_pos rfl]
        simp [lookupA, hkv]
      · rw [if_neg hwv]
        have hkw : ¬ k = w := fun h => hwv (h.symm.trans hkv)
        have hvw : ¬ v = w := fun h => hwv h.symm
        simp [lookupA, hkv, hkw, hwv, hvw, ih]
    · rw [if_neg hkv]
      by_cases hkw : k = w
      · subst hkw
        rw [if_neg hkv]
        simp [lookupA]
      · simp [lookupA, hkv, hkw, ih]

theorem lookupA_addEntry (acc : List (PyVal × List String)) (v : PyVal) (fam : String)
    (w : PyVal) :
    lookupA (addEntry acc v fam) w =
      if w = v then some (((lookupA acc v).getD []) ++ [fam])
      else lookupA acc w := by
  unfold addEntry
  by_cases hm : v ∈ acc.map Prod.fst
  · rw [if_pos hm, lookupA_mapUpdate]
    by_cases hwv : w = v
    · rcases Option.ne_none_iff_exists'.mp
          (fun h => (lookupA_eq_none_iff.mp h) hm) with ⟨ts, hts⟩
      simp [hwv, hts]
    · simp [hwv]
  · rw [if_neg hm, lookupA_append]
    have hv : lookupA acc v = none := lookupA_eq_none_iff.mpr hm
    by_cases hwv : w = v
    · subst hwv
      simp [hv, lookupA]
    · cases hacc : lookupA acc w with
      | some ts => simp [hwv, hacc]
      | none =>
        have hvw : ¬ v = w := fun h => hwv h.symm
        simp [hwv, hacc, lookupA, hvw]

theorem keys_mapUpdate (acc : List (PyVal × List String)) (v : PyVal) (fam : String) :
    (acc.map (fun e => if e.1 = v then (e.1, e.2 ++ [fam]) else e)).map Prod.fst
      = acc.map Prod.fst := by
  rw [List.map_map]
  apply List.map_congr_left
  intro e _
  by_cases h : e.1 = v <;> simp [h]

theorem keys_addEntry (acc : List (PyVal × List String)) (v : PyVal) (fam : String) :
    (addEntry acc v fam).map Prod.fst =
      if v ∈ acc.map Prod.fst then acc.map Prod.fst else acc.map Prod.fst ++ [v] := by
  unfold addEntry
  by_cases hm : v ∈ acc.map Prod.fst
  · rw [if_pos hm, if_pos hm, keys_mapUpdate]
  · rw [if_neg hm, if_neg hm]
    simp

theorem mem_keys_addEntry {acc : List (PyVal × List String)} {v w : PyVal} {fam : String} :
    w ∈ (addEntry acc v fam).map Prod.fst ↔ w ∈ acc.map Prod.fst ∨ w = v := by
  rw [keys_addEntry]
  by_cases hm : v ∈ acc.map Prod.fst
  · rw [if_pos hm]
    constructor
    · exact Or.inl
    · rintro (h | rfl)
      · exact h
      · exact hm
  · rw [if_neg hm]
    simp

theorem nodup_keys_addEntry {acc : List (PyVal × List String)} {v : PyVal} {fam : String}
    (h : (acc.map Prod.fst).Nodup) : ((addEntry acc v fam).map Prod.fst).Nodup := by
  rw [keys_addEntry]
  by_cases hm : v ∈ acc.map Prod.fst
  · rw [if_pos hm]
    exact h
  · rw [if_neg hm]
    simp [List.nodup_append, h, hm]

theorem famsOf_cons (v w : PyVal) (fam : String) (hs : List (PyVal × String)) :
    famsOf w ((v, fam) :: hs) =
      if v = w then fam :: famsOf w hs else famsOf w hs := by
  by_cases h : v = w <;> simp [famsOf, List.filter_cons, h]

theorem mem_keys_addEntries (hs : List (PyVal × String)) :
    ∀ (acc : List (PyVal × List String)) (w : PyVal),
      w ∈ (addEntries acc hs).map Prod.fst
        ↔ w ∈ acc.map Prod.fst ∨ w ∈ hs.map Prod.fst := by
  induction hs with
  | nil => simp [addEntries]
  | cons h hs ih =>
    intro acc w
    rcases h with ⟨v, fam⟩
    have hstep : addEntries acc ((v, fam) :: hs) = addEntries (addEntry acc v fam) hs := rfl
    rw [hstep, ih, mem_keys_addEntry]
    simp only [List.map_cons, List.mem_cons]
    tauto

theorem nodup_keys_addEntries (hs : List (PyVal × String)) :
    ∀ (acc : List (PyVal × List String)), (acc.map Prod.fst).Nodup →
      ((addEntries acc hs).map Prod.fst).Nodup := by
  induction hs with
  | nil => intro acc h; exact h
  | cons e hs ih =>
    intro acc h
    rcases e with ⟨v, fam⟩
    exact ih _ (nodup_keys_addEntry h)

theorem lookupA_addEntries (hs : List (PyVal × String)) :
    ∀ (acc : List (PyVal × List String)) (w : PyVal),
      lookupA (addEntries acc hs) w =
        match lookupA acc w with
        | some ts => some (ts ++ famsOf w hs)
        | none => if famsOf w hs = [] then none else some (famsOf w hs) := by
  induction hs with
  | nil =>
    intro acc w
    cases h : lookupA acc w <;> simp [addEntries, famsOf, h]
  | cons e hs ih =>
    intro acc w
    rcases e with ⟨v, fam⟩
    have hstep : addEntries acc ((v, fam) :: hs) = addEntries (addEntry acc v fam) hs := rfl
    rw [hstep, ih, lookupA_addEntry, famsOf_cons]
    by_cases hwv : w = v
    · subst hwv
      rw [if_pos rfl, if_pos rfl]
      cases hacc : lookupA acc w with
      | some ts => simp [List.append_assoc]
      | none => simp
    · rw [if_neg hwv, if_neg (fun h : v = w => hwv h.symm)]

theorem lookupA_of_mem_nodup {d : List (PyVal × List String)} {v : PyVal}
    {ts : List String} (hnd : (d.map Prod.fst).Nodup) (h : (v, ts) ∈ d) :
    lookupA d v = some ts := by
  induction d with
  | nil => simp at h
  | cons e rest ih =>
    rcases List.mem_cons.mp h with rfl | hm
    · simp [lookupA]
    · rcases List.nodup_cons.mp hnd with ⟨hk, hrest⟩
      have hne : e.1 ≠ v := by
        intro he
        exact hk (he ▸ List.mem_map.mpr ⟨(v, ts), hm, rfl⟩)
      simp [lookupA, hne, ih hrest hm]

theorem mem_of_lookupA {d : List (PyVal × List String)} {v : PyVal} {ts : List String}
    (h : lookupA d v = some ts) : (v, ts) ∈ d := by
  induction d with
  | nil => simp [lookupA] at h
  | cons e rest ih =>
    rcases e with ⟨k, us⟩
    by_cases he : k = v
    · rw [lookupA, if_pos he] at h
      rw [Option.some_inj] at h
      subst he
      subst h
      exact List.mem_cons_self _ _
    · rw [lookupA, if_neg he] at h
      exact List.mem_cons_of_mem _ (ih h)

end MBW

namespace MBW

/-! ### `_find_property_types` and the grouped layer loop -/

theorem hitOf_eq_some {prop : String} {r : Record} {v : PyVal} {fam : String} :
    hitOf prop r = some (v, fam)
      ↔ truthyProp r prop = some v ∧ classOf r = some fam := by
  unfold hitOf
  cases htp : truthyProp r prop with
  | none => simp
  | some w =>
    cases hcl : classOf r with
    | none => simp
    | some g => simp [and_comm, eq_comm]

theorem classOf_range {r : Record} {fam : String} (h : classOf r = some fam) :
    fam = "Point" ∨ fam = "LineString" := by
  unfold classOf at h
  split at h
  · exact FILTER_DICT_range h
  · simp at h

theorem classOf_isSome_of_wf {r : Record} (h : featWf r) :
    ∃ fam, classOf r = some fam := by
  obtain ⟨_, ⟨t, fam, ht, hfam⟩⟩ := h
  exact ⟨fam, by simp [classOf, ht, hfam]⟩

theorem mem_famsOf {w : PyVal} {fam : String} {hs : List (PyVal × String)} :
    fam ∈ famsOf w hs ↔ (w, fam) ∈ hs := by
  induction hs with
  | nil => simp [famsOf]
  | cons e rest ih =>
    rcases e with ⟨v, g⟩
    rw [famsOf_cons]
    by_cases hv : v = w
    · subst hv
      rw [if_pos rfl]
      constructor
      · intro hm
        rcases List.mem_cons.mp hm with rfl | hm
        · exact List.mem_cons_self _ _
        · exact List.mem_cons_of_mem _ (ih.mp hm)
      · intro hm
        rcases List.mem_cons.mp hm with he | hm
        · rw [Prod.mk.injEq] at he
          rw [he.2]
          exact List.mem_cons_self _ _
        · exact List.mem_cons_of_mem _ (ih.mpr hm)
    · rw [if_neg hv, ih]
      constructor
      · exact List.mem_cons_of_mem _
      · intro hm
        rcases List.mem_cons.mp hm with he | hm
        · rw [Prod.mk.injEq] at he
          exact absurd he.1.symm hv
        · exact hm

theorem mem_hitsOf {prop : String} {feats : List Record} {v : PyVal} {fam : String} :
    (v, fam) ∈ hitsOf prop feats
      ↔ ∃ r ∈ feats, truthyProp r prop = some v ∧ classOf r = some fam := by
  unfold hitsOf
  rw [List.mem_filterMap]
  constructor
  · rintro ⟨r, hr, hh⟩
    exact ⟨r, hr, hitOf_eq_some.mp hh⟩
  · rintro ⟨r, hr, hh⟩
    exact ⟨r, hr, hitOf_eq_some.mpr hh⟩

theorem mem_keys_hitsOf {prop : String} {feats : List Record} {v : PyVal} :
    v ∈ (hitsOf prop feats).map Prod.fst
      ↔ ∃ r ∈ feats, ∃ fam, truthyProp r prop = some v ∧ classOf r = some fam := by
  rw [List.mem_map]
  constructor
  · rintro ⟨⟨w, fam⟩, hm, rfl⟩
    rcases mem_hitsOf.mp hm with ⟨r, hr, h1, h2⟩
    exact ⟨r, hr, fam, h1, h2⟩
  · rintro ⟨r, hr, fam, h1, h2⟩
    exact ⟨(v, fam), mem_hitsOf.mpr ⟨r, hr, h1, h2⟩, rfl⟩

/-- The fold of `_find_property_types` over well-formed features: it cannot
raise, and it produces exactly the first-seen-keyed dictionary of the
contribution list. -/
theorem fptRaw_ok (prop : String) : ∀ (feats : List Record)
    (acc : List (PyVal × List String)), (∀ r ∈ feats, featWf r) →
    fptRaw prop feats acc = .ok (addEntries acc (hitsOf prop feats)) := by
  intro feats
  induction feats with
  | nil => intro acc _; simp [fptRaw, hitsOf, addEntries]
  | cons r rs ih =>
    intro acc hwf
    obtain ⟨⟨pv, hpv, hpvD⟩, ⟨t, fam0, ht, hfam0⟩⟩ := hwf r (List.mem_cons_self _ _)
    have htl := fun x hx => hwf x (List.mem_cons_of_mem _ hx)
    cases hget : dictGet pv prop with
    | none =>
      have hstep : fptRaw prop (r :: rs) acc = fptRaw prop rs acc := by
        simp [fptRaw, hpv, hpvD, hget]
      have hhit : hitOf prop r = none := by
        simp [hitOf, truthyProp, hpv, hget]
      rw [hstep, ih _ htl]
      simp [hitsOf, List.filterMap_cons, hhit]
    | some v =>
      by_cases htr : truthy v = true
      · have hstep : fptRaw prop (r :: rs) acc = fptRaw prop rs (addEntry acc v fam0) := by
          simp [fptRaw, hpv, hpvD, hget, htr, ht, hfam0]
        have hhit : hitOf prop r = some (v, fam0) := by
          apply hitOf_eq_some.mpr
          constructor
          · simp [truthyProp, hpv, hget, htr]
          · simp [classOf, ht, hfam0]
        rw [hstep, ih _ htl]
        simp [hitsOf, List.filterMap_cons, hhit, addEntries]
      · have hstep : fptRaw prop (r :: rs) acc = fptRaw prop rs acc := by
          simp [fptRaw, hpv, hpvD, hget, htr]
        have hhit : hitOf prop r = none := by
          simp [hitOf, truthyProp, hpv, hget, htr]
        rw [hstep, ih _ htl]
        simp [hitsOf, List.filterMap_cons, hhit]

/-- One step of the inner grouped loop when the family is classified. -/
theorem groupedInner_cons {p : String} {fs : List PyVal} {vs : String} {t : String}
    {ts : List String} {st : St} {lf : PyVal} {style : String × PyVal}
    (hlf : LAYER_FILTERS t = some lf) (hls : LAYER_STYLES t = some style) :
    groupedInner p fs (.str vs) (t :: ts) st = groupedInner p fs (.str vs) ts
      { st with
          layerids := st.layerids ++ [vs ++ "_" ++ lowerStr t]
          layers := (st.layers ++ [createLayer (vs ++ "_" ++ lowerStr t) style.1
            SOURCE_NAME style.2
            (pl ([.str "all", pl [.str "==", .str p, .str vs], lf] ++ fs))])
          template := (addLayer st.template (createLayer (vs ++ "_" ++ lowerStr t) style.1
            SOURCE_NAME style.2
            (pl ([.str "all", pl [.str "==", .str p, .str vs], lf] ++ fs)))) } := by
  simp only [groupedInner, hlf, hls]

theorem groupedInner_ok (p : String) (fs : List PyVal) (vs : String) :
    ∀ (ts : List String) (st : St), (∀ t ∈ ts, t = "Point" ∨ t = "LineString") →
    (groupedInner p fs (.str vs) ts st).2 = none ∧
      (groupedInner p fs (.str vs) ts st).1.layerids
        = st.layerids ++ ts.map (fun t => vs ++ "_" ++ lowerStr t) := by
  intro ts
  induction ts with
  | nil => intro st _; simp [groupedInner]
  | cons t ts ih =>
    intro st hl
    obtain ⟨lf, hlf⟩ : ∃ lf, LAYER_FILTERS t = some lf := by
      rcases hl t (List.mem_cons_self _ _) with rfl | rfl
      · exact ⟨_, rfl⟩
      · exact ⟨_, rfl⟩
    obtain ⟨style, hls⟩ : ∃ s, LAYER_STYLES t = some s := by
      rcases hl t (List.mem_cons_self _ _) with rfl | rfl
      · exact ⟨_, rfl⟩
      · exact ⟨_, rfl⟩
    rw [groupedInner_cons hlf hls]
    rcases ih _ (fun x hx => hl x (List.mem_cons_of_mem _ hx)) with ⟨h1, h2⟩
    refine ⟨h1, ?_⟩
    rw [h2]
    simp

theorem groupedLoop_ok (p : String) (fs : List PyVal) :
    ∀ (pdict : List (PyVal × List String)) (st : St),
      (∀ e ∈ pdict, (∃ s, e.1 = PyVal.str s) ∧ ∀ t ∈ e.2, t = "Point" ∨ t = "LineString") →
      (groupedLoop p fs pdict st).2 = none ∧
        (groupedLoop p fs pdict st).1.layerids = st.layerids
          ++ pdict.flatMap (fun e => e.2.map fun t => pyStr e.1 ++ "_" ++ lowerStr t) := by
  intro pdict
  induction pdict with
  | nil => intro st _; simp [groupedLoop]
  | cons e rest ih =>
    intro st hyp
    rcases e with ⟨v, ts⟩
    obtain ⟨⟨s, hs⟩, hts⟩ := hyp (v, ts) (List.mem_cons_self _ _)
    simp only at hs
    subst hs
    rcases groupedInner_ok p fs s ts st hts with ⟨h1, h2⟩
    rcases E : groupedInner p fs (.str s) ts st with ⟨st', e'⟩
    rw [E] at h1 h2
    simp only at h1 h2
    subst h1
    have hstep : groupedLoop p fs ((PyVal.str s, ts) :: rest) st = groupedLoop p fs rest st' := by
      simp only [groupedLoop, E]
    rw [hstep]
    rcases ih st' (fun x hx => hyp x (List.mem_cons_of_mem _ hx)) with ⟨g1, g2⟩
    refine ⟨g1, ?_⟩
    rw [g2, h2]
    simp [pyStr]

end MBW

namespace MBW

/-! ### Claim C3 -/

/-- Reduction of `outputPlan` in grouped mode once the property dictionary is
known. -/
theorem outputPlan_grouped (plainT prefT : ToggleTpl) (st : St) (p : String)
    (fs : List PyVal) (pdict : List (PyVal × List String)) (hp : ¬ p = "")
    (hfpt : findPropertyTypes st.features p = .ok pdict) :
    outputPlan plainT prefT st p fs =
      match groupedLoop p fs pdict st with
      | (st3, some e) => (st3, some e, none)
      | (st3, none) =>
        match addToggleScript plainT prefT st3.template st3.layerids
            (some (pdict.map Prod.fst)) with
        | .error e => (st3, some e, none)
        | .ok tpl => ({ st3 with template := tpl }, none, some (writeFilled tpl)) := by
  unfold outputPlan
  rw [if_neg hp, hfpt]

/-- C3: in grouped mode on property `node`, over a session built by successful
registrations where every feature carries a truthy `node` value `"A"` or
`"B"`, every `"A"` feature is a point, and `"B"` occurs on both a point and a
line feature, the produced layer identifiers are exactly
`{"A_point", "B_point", "B_linestring"}` (property value joined by an
underscore to the lower-cased geometry family). -/
theorem C3_grouped_layer_identifiers (tpl : Tpl) (token : String) (markers : Nat)
    (plainT prefT : ToggleTpl) (recs : List Record) (st : St) (fs : List PyVal)
    (hst : st = (addAll (initState tpl token markers) recs).1)
    (hok : (addAll (initState tpl token markers) recs).2 = none)
    (hcb : ∃ cb, findCenterAndBounds st.all_coords = .ok cb)
    (hnode : ∀ r ∈ recs, truthyProp r "node" = some (.str "A")
        ∨ truthyProp r "node" = some (.str "B"))
    (hAonly : ∀ r ∈ recs, truthyProp r "node" = some (.str "A") → classOf r = some "Point")
    (hA : ∃ r ∈ recs, truthyProp r "node" = some (.str "A"))
    (hBp : ∃ r ∈ recs, truthyProp r "node" = some (.str "B") ∧ classOf r = some "Point")
    (hBl : ∃ r ∈ recs, truthyProp r "node" = some (.str "B") ∧ classOf r = some "LineString") :
    ∀ lid, lid ∈ (output_html plainT prefT st "node" fs).1.layerids ↔
      lid ∈ (["A_point", "B_point", "B_linestring"] : List String) := by
  have hall : addAll (initState tpl token markers) recs = (st, none) := by
    rw [hst, ← hok]
  rcases addAll_ok hall with ⟨hfe, hgft, hli, hla, htp, hwf⟩
  simp only [initState] at hfe hli
  rw [List.nil_append] at hfe
  obtain ⟨cb, hcbe⟩ := hcb
  have hfpt : findPropertyTypes st.features "node"
      = .ok ((addEntries [] (hitsOf "node" recs)).map fun e => (e.1, npUnique e.2)) := by
    unfold findPropertyTypes
    rw [hfe, fptRaw_ok "node" recs [] hwf]
    rfl
  have hnd0 : ((addEntries [] (hitsOf "node" recs)).map Prod.fst).Nodup :=
    nodup_keys_addEntries _ [] (by simp)
  have hlook : ∀ w, lookupA (addEntries [] (hitsOf "node" recs)) w
      = if famsOf w (hitsOf "node" recs) = [] then none
        else some (famsOf w (hitsOf "node" recs)) := by
    intro w
    rw [lookupA_addEntries]
    rfl
  have hmem0 : ∀ w ts0, (w, ts0) ∈ addEntries [] (hitsOf "node" recs) ↔
      (ts0 = famsOf w (hitsOf "node" recs) ∧ famsOf w (hitsOf "node" recs) ≠ []) := by
    intro w ts0
    constructor
    · intro hm
      have hl := lookupA_of_mem_nodup hnd0 hm
      rw [hlook w] at hl
      by_cases hf : famsOf w (hitsOf "node" recs) = []
      · rw [if_pos hf] at hl
        simp at hl
      · rw [if_neg hf] at hl
        rw [Option.some_inj] at hl
        exact ⟨hl.symm, hf⟩
    · rintro ⟨rfl, hf⟩
      apply mem_of_lookupA
      rw [hlook w, if_neg hf]
  have hw_val : ∀ w, w ∈ (hitsOf "node" recs).map Prod.fst →
      w = PyVal.str "A" ∨ w = PyVal.str "B" := by
    intro w hw
    rcases mem_keys_hitsOf.mp hw with ⟨r, hr, fam, htp', _⟩
    rcases hnode r hr with h | h
    · rw [htp'] at h
      rw [Option.some_inj] at h
      exact Or.inl h
    · rw [htp'] at h
      rw [Option.some_inj] at h
      exact Or.inr h
  have hloopwf : ∀ e ∈ (addEntries [] (hitsOf "node" recs)).map
      (fun e => (e.1, npUnique e.2)),
      (∃ s, e.1 = PyVal.str s) ∧ ∀ t ∈ e.2, t = "Point" ∨ t = "LineString" := by
    intro e he
    rcases List.mem_map.mp he with ⟨⟨w, ts0⟩, hm, rfl⟩
    have hw : w ∈ (hitsOf "node" recs).map Prod.fst := by
      rcases (hmem0 w ts0).mp hm with ⟨rfl, hf⟩
      rcases List.exists_mem_of_ne_nil _ hf with ⟨fam, hfam⟩
      have hmm := mem_famsOf.mp hfam
      exact List.mem_map.mpr ⟨(w, fam), hmm, rfl⟩
    constructor
    · rcases hw_val w hw with rfl | rfl
      · exact ⟨"A", rfl⟩
      · exact ⟨"B", rfl⟩
    · intro t ht
      simp only at ht
      rcases (hmem0 w ts0).mp hm with ⟨rfl, _⟩
      have hmm := mem_famsOf.mp (mem_npUnique.mp ht)
      rcases mem_hitsOf.mp hmm with ⟨r, _, _, hcl⟩
      exact classOf_range hcl
  rcases groupedLoop_ok "node" (normFilters fs)
      ((addEntries [] (hitsOf "node" recs)).map fun e => (e.1, npUnique e.2))
      (stAfterSource st cb) hloopwf with ⟨h2, hids⟩
  have hout : (output_html plainT prefT st "node" fs).1.layerids
      = ((addEntries [] (hitsOf "node" recs)).map fun e => (e.1, npUnique e.2)).flatMap
          (fun e => e.2.map fun t => pyStr e.1 ++ "_" ++ lowerStr t) := by
    simp only [output_html, outputCore, hcbe]
    rw [outputPlan_grouped plainT prefT (stAfterSource st cb) "node" (normFilters fs)
      ((addEntries [] (hitsOf "node" recs)).map fun e => (e.1, npUnique e.2))
      (by decide) (by rw [stAfterSource_features]; exact hfpt)]
    obtain ⟨st3, e, E⟩ : ∃ a b, groupedLoop "node" (normFilters fs)
        ((addEntries [] (hitsOf "node" recs)).map fun e => (e.1, npUnique e.2))
        (stAfterSource st cb) = (a, b) := ⟨_, _, rfl⟩
    rw [E] at h2 hids ⊢
    simp only at h2
    subst h2
    simp only at hids
    show st3.layerids = _
    rw [hids, stAfterSource_layerids, hli]
    rw [List.nil_append]
  rw [hout]
  intro lid
  have key : lid ∈ ((addEntries [] (hitsOf "node" recs)).map
        fun e => (e.1, npUnique e.2)).flatMap
        (fun e => e.2.map fun t => pyStr e.1 ++ "_" ++ lowerStr t)
      ↔ ∃ w t, (w, t) ∈ hitsOf "node" recs ∧ lid = pyStr w ++ "_" ++ lowerStr t := by
    rw [List.mem_flatMap]
    constructor
    · rintro ⟨e, he, hm⟩
      rcases List.mem_map.mp he with ⟨⟨w, ts0⟩, hm0, rfl⟩
      rcases List.mem_map.mp hm with ⟨t, ht, rfl⟩
      simp only at ht
      rcases (hmem0 w ts0).mp hm0 with ⟨rfl, _⟩
      exact ⟨w, t, mem_famsOf.mp (mem_npUnique.mp ht), rfl⟩
    · rintro ⟨w, t, hm, rfl⟩
      have hf : famsOf w (hitsOf "node" recs) ≠ [] :=
        List.ne_nil_of_mem (mem_famsOf.mpr hm)
      refine ⟨(w, npUnique (famsOf w (hitsOf "node" recs))), ?_, ?_⟩
      · exact List.mem_map.mpr ⟨(w, famsOf w (hitsOf "node" recs)),
          (hmem0 w _).mpr ⟨rfl, hf⟩, rfl⟩
      · exact List.mem_map.mpr ⟨t, mem_npUnique.mpr (mem_famsOf.mpr hm), rfl⟩
  rw [key]
  constructor
  · rintro ⟨w, t, hm, rfl⟩
    rcases mem_hitsOf.mp hm with ⟨r, hr, htp', hcl⟩
    rcases hnode r hr with h | h
    · rw [htp'] at h
      rw [Option.some_inj] at h
      subst h
      have hP := hAonly r hr htp'
      rw [hcl] at hP
      rw [Option.some_inj] at hP
      subst hP
      decide
    · rw [htp'] at h
      rw [Option.some_inj] at h
      subst h
      rcases classOf_range hcl with rfl | rfl
      · decide
      · decide
  · intro hm
    rcases List.mem_cons.mp hm with rfl | hm
    · -- "A_point"
      rcases hA with ⟨r, hr, htp'⟩
      have hP := hAonly r hr htp'
      exact ⟨.str "A", "Point", mem_hitsOf.mpr ⟨r, hr, htp', hP⟩, by decide⟩
    · rcases List.mem_cons.mp hm with rfl | hm
      · -- "B_point"
        rcases hBp with ⟨r, hr, htp', hcl⟩
        exact ⟨.str "B", "Point", mem_hitsOf.mpr ⟨r, hr, htp', hcl⟩, by decide⟩
      · rcases List.mem_cons.mp hm with rfl | hm
        · -- "B_linestring"
          rcases hBl with ⟨r, hr, htp', hcl⟩
          exact ⟨.str "B", "LineString", mem_hitsOf.mpr ⟨r, hr, htp', hcl⟩, by decide⟩
        · simp at hm

theorem C3_grouped_layer_identifiers_witness :
    "A_point" ∈ (output_html plainFix prefFix stThree "node" []).1.layerids := by
  have h := C3_grouped_layer_identifiers tplFix "tok" 4 plainFix prefFix
    [recAPoint, recBLine, recBPoint] stThree [] rfl (by decide) ⟨_, rfl⟩
    (by decide) (by decide) ⟨recAPoint, by decide, by decide⟩
    ⟨recBPoint, by decide, by decide, by decide⟩
    ⟨recBLine, by decide, by decide, by decide⟩
  exact (h "A_point").mpr (by decide)

end MBW

namespace MBW

/-! ### Claim C5: no placeholder survives in a written document -/

theorem mem_subFirst {p : PH} {r : String} : ∀ {t : Tpl} {seg : Seg},
    seg ∈ subFirst p r t → seg ∈ t ∨ seg = .lit r := by
  intro t
  induction t with
  | nil => intro seg h; simp [subFirst] at h
  | cons s rest ih =>
    intro seg h
    rw [subFirst] at h
    by_cases hs : s = .ph p
    · rw [if_pos hs] at h
      rcases List.mem_cons.mp h with rfl | h
      · exact Or.inr rfl
      · exact Or.inl (List.mem_cons_of_mem _ h)
    · rw [if_neg hs] at h
      rcases List.mem_cons.mp h with rfl | h
      · exact Or.inl (List.mem_cons_self _ _)
      · rcases ih h with h' | h'
        · exact Or.inl (List.mem_cons_of_mem _ h')
        · exact Or.inr h'

theorem mem_replaceAllPh {p : PH} {r : String} {t : Tpl} {seg : Seg}
    (h : seg ∈ replaceAllPh p r t) : seg ∈ t ∨ seg = .lit r := by
  rcases List.mem_map.mp h with ⟨s0, hs0, rfl⟩
  by_cases hs : s0 = .ph p
  · rw [if_pos hs]
    exact Or.inr rfl
  · rw [if_neg hs]
    exact Or.inl hs0

theorem ph_not_mem_replaceAllPh {p : PH} {r : String} {t : Tpl} :
    Seg.ph p ∉ replaceAllPh p r t := by
  intro h
  rcases List.mem_map.mp h with ⟨s0, _, he⟩
  by_cases hs : s0 = .ph p
  · rw [if_pos hs] at he
    exact absurd he (by simp)
  · rw [if_neg hs] at he
    exact hs he

theorem mem_stripPh {p : PH} {t : Tpl} {seg : Seg} (h : seg ∈ stripPh p t) : seg ∈ t :=
  List.mem_of_mem_filter h

theorem ne_of_mem_stripPh {p : PH} {t : Tpl} {seg : Seg} (h : seg ∈ stripPh p t) :
    seg ≠ .ph p := by
  have := List.of_mem_filter h
  simpa using this

theorem not_ph_mem_replaceAllPh_of {p q : PH} {r : String} {t : Tpl}
    (h : Seg.ph q ∉ t) : Seg.ph q ∉ replaceAllPh p r t := by
  intro hm
  rcases mem_replaceAllPh hm with h' | h'
  · exact h h'
  · simp at h'

theorem not_ph_mem_subFirst_of {p q : PH} {r : String} {t : Tpl}
    (h : Seg.ph q ∉ t) : Seg.ph q ∉ subFirst p r t := by
  intro hm
  rcases mem_subFirst hm with h' | h'
  · exact h h'
  · simp at h'

/-- `_read_template` leaves no access-token or marker placeholder behind. -/
theorem readTemplate_no_marker_ph (t : Tpl) (token : String) (sm lm : Nat) (q : PH)
    (hq : q = PH.accessToken ∨ q = PH.sourceMarkers ∨ q = PH.layerMarkers) :
    Seg.ph q ∉ readTemplate t token sm lm := by
  intro h
  unfold readTemplate at h
  rcases List.mem_flatMap.mp h with ⟨seg, _, hin⟩
  rcases hq with rfl | rfl | rfl <;>
    (cases seg with
     | lit s => simp at hin
     | ph pp => cases pp <;> simp_all [List.mem_replicate])

/-- Segments of the template after the ungrouped layer loop: every segment is
from the incoming template or a substituted literal. -/
theorem mem_ungroupedLoop_template (fs : List PyVal) : ∀ (l : List String) (st : St)
    (seg : Seg), seg ∈ (ungroupedLoop fs l st).1.template →
    seg ∈ st.template ∨ ∃ s, seg = .lit s := by
  intro l
  induction l with
  | nil => intro st seg h; exact Or.inl (by simpa [ungroupedLoop] using h)
  | cons t ts ih =>
    intro st seg h
    simp only [ungroupedLoop] at h
    split at h
    · exact Or.inl (by simpa using h)
    · split at h
      · exact Or.inl (by simpa using h)
      · rcases ih _ _ h with h' | h'
        · simp only at h'
          rcases mem_subFirst h' with h'' | h''
          · exact Or.inl h''
          · exact Or.inr ⟨_, h''⟩
        · exact Or.inr h'

/-- Segments of the template after the inner grouped loop. -/
theorem mem_groupedInner_template (p : String) (fs : List PyVal) (v : PyVal) :
    ∀ (ts : List String) (st : St) (seg : Seg),
    seg ∈ (groupedInner p fs v ts st).1.template →
    seg ∈ st.template ∨ ∃ s, seg = .lit s := by
  intro ts
  induction ts with
  | nil => intro st seg h; exact Or.inl (by simpa [groupedInner] using h)
  | cons t ts ih =>
    intro st seg h
    simp only [groupedInner] at h
    split at h
    · next vs =>
      split at h
      · exact Or.inl (by simpa using h)
      · split at h
        · exact Or.inl (by simpa using h)
        · rcases ih _ _ h with h' | h'
          · simp only at h'
            rcases mem_subFirst h' with h'' | h''
            · exact Or.inl h''
            · exact Or.inr ⟨_, h''⟩
          · exact Or.inr h'
    · exact Or.inl (by simpa using h)

/-- Segments of the template after the grouped layer loop. -/
theorem mem_groupedLoop_template (p : String) (fs : List PyVal) :
    ∀ (pdict : List (PyVal × List String)) (st : St) (seg : Seg),
    seg ∈ (groupedLoop p fs pdict st).1.template →
    seg ∈ st.template ∨ ∃ s, seg = .lit s := by
  intro pdict
  induction pdict with
  | nil => intro st seg h; exact Or.inl (by simpa [groupedLoop] using h)
  | cons e rest ih =>
    intro st seg h
    rcases e with ⟨v, ts⟩
    simp only [groupedLoop] at h
    split at h
    · next st' heq =>
      rcases ih _ _ h with h' | h'
      · have hseg : seg ∈ (groupedInner p fs v ts st).1.template := by
          rw [heq]
          exact h'
        exact mem_groupedInner_template p fs v ts st seg hseg
      · exact Or.inr h'
    · exact mem_groupedInner_template p fs v ts st seg h

/-- After the toggle substitution and the final strip, no placeholder segment
is left, provided the incoming template only contains slot or toggle
placeholders. -/
theorem writeFilled_replace_no_ph {t : Tpl} (s' : String)
    (hq : ∀ q, Seg.ph q ∈ t →
      q = PH.fillinSource ∨ q = PH.fillinLayer ∨ q = PH.toggleScript) :
    ∀ seg ∈ writeFilled (replaceAllPh .toggleScript s' t), Seg.isLit seg = true := by
  intro seg hseg
  cases seg with
  | lit s => rfl
  | ph q =>
    exfalso
    have hql : q ≠ PH.fillinLayer := by
      have := ne_of_mem_stripPh hseg
      intro he
      rw [he] at this
      exact this rfl
    have hseg1 : Seg.ph q ∈ stripPh .fillinSource (replaceAllPh .toggleScript s' t) :=
      mem_stripPh hseg
    have hqs : q ≠ PH.fillinSource := by
      have := ne_of_mem_stripPh hseg1
      intro he
      rw [he] at this
      exact this rfl
    have hseg2 : Seg.ph q ∈ replaceAllPh .toggleScript s' t := mem_stripPh hseg1
    have hqt : q ≠ PH.toggleScript := by
      intro he
      rw [he] at hseg2
      exact ph_not_mem_replaceAllPh hseg2
    have hseg3 : Seg.ph q ∈ t := by
      rcases mem_replaceAllPh hseg2 with h' | h'
      · exact h'
      · simp at h'
    rcases hq q hseg3 with h | h | h
    · exact hqs h
    · exact hql h
    · exact hqt h

/-- C5: a document actually written by `output_html` contains no remaining
placeholder segment: every source slot, layer slot, toggle-script, center and
bounds token has been substituted or stripped.  The only assumption on the
session is the one `_read_template` establishes for every instance: the
template carries no access-token or marker placeholder (the claim's "minimal
template used once, within capacity" is not even needed, because unused slots
are stripped and the other tokens are replaced everywhere). -/
theorem C5_written_document_has_no_placeholder (plainT prefT : ToggleTpl) (st : St)
    (p : String) (fs : List PyVal) (d : Tpl)
    (h1 : Seg.ph PH.accessToken ∉ st.template)
    (h2 : Seg.ph PH.sourceMarkers ∉ st.template)
    (h3 : Seg.ph PH.layerMarkers ∉ st.template)
    (hout : (output_html plainT prefT st p fs).2.2 = some d) :
    ∀ seg ∈ d, Seg.isLit seg = true := by
  simp only [output_html, outputCore] at hout
  split at hout
  · simp at hout
  · next cb hcb =>
    have hafter : ∀ q, Seg.ph q ∈ (stAfterSource st cb).template →
        ¬ (q = PH.accessToken ∨ q = PH.sourceMarkers ∨ q = PH.layerMarkers
            ∨ q = PH.center ∨ q = PH.bounds) := by
      intro q hm hcases
      have hnot : Seg.ph q ∉ (stAfterSource st cb).template := by
        show Seg.ph q ∉ subFirst .fillinSource _
          (replaceAllPh .bounds _ (replaceAllPh .center _ st.template))
        rcases hcases with rfl | rfl | rfl | rfl | rfl
        · exact not_ph_mem_subFirst_of (not_ph_mem_replaceAllPh_of
            (not_ph_mem_replaceAllPh_of h1))
        · exact not_ph_mem_subFirst_of (not_ph_mem_replaceAllPh_of
            (not_ph_mem_replaceAllPh_of h2))
        · exact not_ph_mem_subFirst_of (not_ph_mem_replaceAllPh_of
            (not_ph_mem_replaceAllPh_of h3))
        · exact not_ph_mem_subFirst_of (not_ph_mem_replaceAllPh_of
            ph_not_mem_replaceAllPh)
        · exact not_ph_mem_subFirst_of ph_not_mem_replaceAllPh
      exact hnot hm
    simp only [outputPlan] at hout
    split at hout
    · -- ungrouped: the toggle step always raises, nothing is written
      split at hout
      · simp at hout
      · split at hout
        · simp at hout
        · next tplX heq =>
          exfalso
          simp [addToggleScript] at heq
    · -- grouped
      split at hout
      · simp at hout
      · next pdict hfpt =>
        split at hout
        · simp at hout
        · next st3 heq2 =>
          split at hout
          · simp at hout
          · next tplX heq =>
            rw [Option.some_inj] at hout
            subst hout
            have htplX : tplX = replaceAllPh .toggleScript
                (fillToggle (match some (pdict.map Prod.fst) with
                  | some (_ :: _) => prefT
                  | _ => plainT) (reprStrList st3.layerids)
                  (reprValList (pdict.map Prod.fst))) st3.template := by
              simp only [addToggleScript] at heq
              rw [Except.ok.injEq] at heq
              exact heq.symm
            rw [htplX]
            apply writeFilled_replace_no_ph
            intro q hm
            have hst3 : Seg.ph q ∈ (stAfterSource st cb).template ∨ ∃ s, Seg.ph q = .lit s := by
              have hback : Seg.ph q
                  ∈ (groupedLoop p (normFilters fs) pdict (stAfterSource st cb)).1.template := by
                rw [heq2]
                exact hm
              exact mem_groupedLoop_template p (normFilters fs) pdict (stAfterSource st cb) _ hback
            rcases hst3 with hmm | ⟨s, hs⟩
            · have := hafter q hmm
              cases q with
              | fillinSource => exact Or.inl rfl
              | fillinLayer => exact Or.inr (Or.inl rfl)
              | toggleScript => exact Or.inr (Or.inr rfl)
              | accessToken => exact absurd (Or.inl rfl) this
              | sourceMarkers => exact absurd (Or.inr (Or.inl rfl)) this
              | layerMarkers => exact absurd (Or.inr (Or.inr (Or.inl rfl))) this
              | center => exact absurd (Or.inr (Or.inr (Or.inr (Or.inl rfl)))) this
              | bounds => exact absurd (Or.inr (Or.inr (Or.inr (Or.inr rfl)))) this
            · simp at hs

theorem C5_written_document_has_no_placeholder_witness :
    ∃ d, (output_html plainFix prefFix stThree "node" []).2.2 = some d ∧
      ∀ seg ∈ d, Seg.isLit seg = true := by
  refine ⟨((output_html plainFix prefFix stThree "node" []).2.2).getD [], rfl, ?_⟩
  exact C5_written_document_has_no_placeholder plainFix prefFix stThree "node" [] _
    (by decide) (by decide) (by decide) rfl

end MBW
